import Mathlib

/-!
Verification development for the imagegen repository: a shallow embedding of
the asynchronous job-lifecycle code (lipsync webhook reconciler, style-job
submitter and background worker, client poll loop, client file validation,
template placeholder replacement) together with theorems settling the
specification claims about it.

Character conventions: the source manipulates strings containing brace
characters (placeholders, JSON). Braces and a few other delicate characters
are introduced through `Char.ofNat` and strings containing them are built
with `String.mk` from explicit character lists.
-/

/-- The left brace character. -/
def lb : Char := Char.ofNat 123

/-- The right brace character. -/
def rb : Char := Char.ofNat 125

/-- The dollar character, special in the replacement string of
JavaScript `String.prototype.replace`. -/
def dollar : Char := Char.ofNat 36

/-- The double-quote character. -/
def dq : Char := Char.ofNat 34

/-- The backslash character. -/
def bslash : Char := Char.ofNat 92

/-- Job status values used by the two job tables of the repository:
`lipsync_jobs` uses PENDING, UPLOADING, PROCESSING, COMPLETED, FAILED
(part_000, Phase 1 step 3); `style_jobs` uses QUEUED, PROCESSING,
COMPLETED, FAILED (submit-style-job and process-style-jobs). -/
inductive JobStatus
  | pending
  | uploading
  | queued
  | processing
  | completed
  | failed
  deriving DecidableEq, Repr

/-- A job status is terminal when it is COMPLETED or FAILED. -/
def JobStatus.isTerminal : JobStatus → Bool
  | .completed => true
  | .failed => true
  | _ => false

/-- A small JSON value model for webhook bodies and edge-function responses.
Numbers are restricted to integers (no claim depends on float formatting). -/
inductive Json
  | jnull
  | jbool (b : Bool)
  | jnum (n : Int)
  | jstr (s : String)
  | jarr (xs : List Json)
  | jobj (fields : List (String × Json))
  deriving BEq, Repr

/-- Escape one character for JSON string rendering. Control characters are
not escaped (no embedded string in this development contains any). -/
def escChar (c : Char) : String :=
  if c = dq then String.mk [bslash, dq]
  else if c = bslash then String.mk [bslash, bslash]
  else String.mk [c]

/-- Render a JSON string literal with surrounding quotes. -/
def jquote (s : String) : String :=
  String.mk [dq] ++ String.join (s.toList.map escChar) ++ String.mk [dq]

mutual

/-- JSON.stringify: compact rendering, field order preserved, the way
Deno renders the webhook body objects (part_000 line 144). -/
def stringify : Json → String
  | .jnull => "null"
  | .jbool true => "true"
  | .jbool false => "false"
  | .jnum n => toString n
  | .jstr s => jquote s
  | .jarr xs => "[" ++ stringifyArr xs ++ "]"
  | .jobj fs => String.mk [lb] ++ stringifyObj fs ++ String.mk [rb]

/-- Render the elements of a JSON array, comma separated. -/
def stringifyArr : List Json → String
  | [] => ""
  | [x] => stringify x
  | x :: y :: xs => stringify x ++ "," ++ stringifyArr (y :: xs)

/-- Render the fields of a JSON object, comma separated. -/
def stringifyObj : List (String × Json) → String
  | [] => ""
  | [(k, v)] => jquote k ++ ":" ++ stringify v
  | (k, v) :: f :: fs => jquote k ++ ":" ++ stringify v ++ "," ++ stringifyObj (f :: fs)

end

/-- JavaScript truthiness of a JSON value (`x || y` picks `x` iff `jsTruthy x`). -/
def jsTruthy : Json → Bool
  | .jnull => false
  | .jbool b => b
  | .jnum n => n != 0
  | .jstr s => !s.isEmpty
  | .jarr _ => true
  | .jobj _ => true

/-- Field access `obj.k` on a JSON value: `none` models JavaScript
`undefined` (absent field, or receiver not an object). -/
def jfield (j : Json) (k : String) : Option Json :=
  match j with
  | .jobj fs => (fs.find? (fun kv => kv.1 == k)).map (fun kv => kv.2)
  | _ => none

/-- Optional chaining `x?.k`: propagates absence. -/
def jchain (x : Option Json) (k : String) : Option Json :=
  match x with
  | none => none
  | some .jnull => none
  | some j => jfield j k

/-- Extract a JavaScript string, `none` for any other shape. -/
def jAsString (x : Option Json) : Option String :=
  match x with
  | some (.jstr s) => some s
  | _ => none

/-- An HTTP response as produced by the edge functions: a status code and a
JSON body (plain-text bodies are modelled as JSON strings). -/
structure HttpResponse where
  status : Nat
  body : Json
  deriving BEq, Repr

/-- Whether a JSON object body carries a given top-level field. -/
def hasField (j : Json) (k : String) : Bool :=
  match j with
  | .jobj fs => fs.any (fun kv => kv.1 == k)
  | _ => false

/-!
Lipsync jobs and the webhook reconciler.

The `lipsync_jobs` table schema is given in src/unnamed/part_000 (Phase 1,
step 3). The `handle-lipsync-webhook` edge function is embedded from its
step-by-step description in src/unnamed/part_000, Phase 2, step 2
(lines 119-150): extract `job_id` from the query string, fetch the row,
reject 404 when absent, reject with a client error when the body's
`request_id` does not match the stored `fal_request_id`, then apply the
terminal update according to the body's `status` field, and otherwise
acknowledge with 200.
-/

/-- A row of the `lipsync_jobs` table (part_000, Phase 1, step 3). -/
structure LipsyncJob where
  id : String
  user_id : String
  fal_request_id : Option String
  status : JobStatus
  input_video_url : String
  input_audio_url : String
  output_video_url : Option String
  error_message : Option String
  created_at : Nat
  updated_at : Nat
  deriving DecidableEq, Repr

/-- Strict equality `body.request_id === job.fal_request_id` between the
webhook body field (absent = undefined) and the stored column (none = SQL
null = JS null): equal strings match, `null === null` matches, and any
other combination (undefined vs null, null vs string, non-string field)
does not. -/
def reqIdMatches (field : Option Json) (stored : Option String) : Bool :=
  match field, stored with
  | some (.jstr r), some s => r == s
  | some .jnull, none => true
  | _, _ => false

/-- Replace the row with the given id (row-level UPDATE ... WHERE id = jid). -/
def updateLipsyncJob (store : List LipsyncJob) (jid : String)
    (f : LipsyncJob → LipsyncJob) : List LipsyncJob :=
  store.map (fun j => if j.id == jid then f j else j)

/-- First truthy of `fal_error || payload || body` (part_000 line 144):
the body fields are JS `undefined` when absent and follow JS truthiness
otherwise. -/
def firstTruthy (err payload : Option Json) (body : Json) : Json :=
  match err with
  | some e => if jsTruthy e then e else
      match payload with
      | some p => if jsTruthy p then p else body
      | none => body
  | none =>
      match payload with
      | some p => if jsTruthy p then p else body
      | none => body

/-- The handle-lipsync-webhook edge function (part_000, Phase 2, step 2).
Arguments: the current `lipsync_jobs` table, the `job_id` query parameter,
the parsed JSON request body, and the current time for `updated_at`.
Returns the updated table and the HTTP response.

Notes kept faithful to the plan text: the request-id check returns a
400-class rejection without touching the row; the success branch requires
`payload?.video?.url` to exist (the plan says "Check if it exists" without
specifying the missing case, so the row is left unchanged and the standard
200 acknowledgement is returned there); terminal updates are applied to the
row unconditionally — the plan has no already-terminal guard. -/
def handleLipsyncWebhook (store : List LipsyncJob) (jobIdParam : Option String)
    (body : Json) (now : Nat) : List LipsyncJob × HttpResponse :=
  match jobIdParam with
  | none => (store, ⟨400, .jstr "Missing job_id"⟩)
  | some jid =>
    match store.find? (fun j => j.id == jid) with
    | none => (store, ⟨404, .jstr "Job not found"⟩)
    | some job =>
      if reqIdMatches (jfield body "request_id") job.fal_request_id = false then
        (store, ⟨400, .jstr "request_id mismatch"⟩)
      else
        if jAsString (jfield body "status") == some "OK" then
          match jAsString (jchain (jchain (jfield body "payload") "video") "url") with
          | some url =>
            (updateLipsyncJob store jid (fun j =>
               { j with status := .completed, output_video_url := some url,
                        updated_at := now }),
             ⟨200, .jstr "Webhook received"⟩)
          | none => (store, ⟨200, .jstr "Webhook received"⟩)
        else
          (updateLipsyncJob store jid (fun j =>
             { j with status := .failed,
                      error_message := some (stringify (firstTruthy
                        (jfield body "error") (jfield body "payload") body)),
                      updated_at := now }),
           ⟨200, .jstr "Webhook received"⟩)

/-!
Style jobs: the background worker process-style-jobs
(src/supabase/functions/process-style-jobs/index.ts).

The worker claims the oldest QUEUED row of `style_jobs`, marks it
PROCESSING, downloads the inspiration images, calls the OpenAI edits
endpoint, uploads the results, inserts `generated_images` rows, and marks
the job COMPLETED. Every throw lands in the catch block at lines 240-267.
-/

/-- A row of the `style_jobs` table (columns per the insert in
submit-style-job lines 95-106 and the reads/updates in process-style-jobs). -/
structure StyleJob where
  id : String
  user_id : String
  prompt : String
  insp_paths : List String
  n : Int
  size : String
  status : JobStatus
  exec_id : Option String
  error_message : Option String
  created_at : Nat
  updated_at : Nat
  deriving DecidableEq, Repr

/-- Replace the `style_jobs` row with the given id. -/
def updateStyleJob (store : List StyleJob) (jid : String)
    (f : StyleJob → StyleJob) : List StyleJob :=
  store.map (fun j => if j.id == jid then f j else j)

/-- The database/storage operations the worker performs, in order, used to
state ordering properties of one invocation. -/
inductive WorkerOp
  | selectQueued
  | updateJob (id : String) (st : JobStatus)
  | downloadObj (path : String)
  | openaiCall
  | uploadObj (path : String)
  | signUrl (path : String)
  | insertImage (path : String)
  deriving DecidableEq, Repr

/-- Environment of one worker invocation: outcomes of the fallible external
operations (storage download, OpenAI call, storage upload, signed URL), the
`crypto.randomUUID()` value used as execution id, the clock, and whether the
initial QUEUED-select itself errors (lines 63-69). -/
structure WorkerEnv where
  selectFails : Option String
  download : String → Except String String
  openai : List String → Except String (List String)
  upload : String → Except String Unit
  sign : String → Except String String
  execId : String
  now : Nat

/-- The oldest QUEUED job: `.eq('status','QUEUED').order('created_at')
.limit(1).maybeSingle()` (lines 55-61) — the first row, in table order,
holding the minimal `created_at` among QUEUED rows. `pickOlder` is the
fold step: keep the candidate unless the next row is strictly older. -/
def pickOlder (acc : Option StyleJob) (j : StyleJob) : Option StyleJob :=
  match acc with
  | none => some j
  | some b => if j.created_at < b.created_at then some j else acc

/-- The oldest QUEUED job as above, folding `pickOlder` over the QUEUED rows. -/
def selectOldestQueued (store : List StyleJob) : Option StyleJob :=
  (store.filter (fun j => j.status == .queued)).foldl pickOlder none

/-- Identifiers visible inside the catch block of the `serve` handler
(lines 240-267): the handler-scope `let job` (line 45) and the catch
parameter `error`. Module-level bindings (getEnvVar, base64ToBlob,
DETAILED_STYLE_INSTRUCTIONS, imports) are also visible but none of them is
`supabaseAdmin`. -/
def catchVisibleIdents : List String := ["job", "error", "updateErr"]

/-- Identifiers bound by `const` INSIDE the try block (lines 49-238):
block-scoped, hence not visible in the catch block. In particular
`supabaseAdmin` (line 52) is in this list. -/
def tryBlockIdents : List String :=
  ["supabaseUrl", "serviceRoleKey", "supabaseAdmin", "jobData", "jobError",
   "apiKey", "openaiUrl", "userContentPrompt", "finalPrompt", "numVariations",
   "size", "formData", "openaiResponse", "responseBodyText", "responseData",
   "imageB64List", "execId", "signedUrls", "filePath", "fileBytes"]

/-- Whether an identifier resolves inside the catch block's scope chain. -/
def identVisibleInCatch (x : String) : Bool := catchVisibleIdents.contains x

/-- The catch block of process-style-jobs (lines 240-267). When a job had
been claimed it runs an inner try that evaluates
`supabaseAdmin.from('style_jobs').update({status:'FAILED', ...})`; the
identifier `supabaseAdmin` is bound by `const` inside the try block
(line 52) and is not visible here, so that expression raises a
ReferenceError, which the inner catch (lines 257-259) swallows. The 500
response is returned either way. -/
def workerCatch (job : Option StyleJob) (msg : String) (store : List StyleJob)
    (now : Nat) : List StyleJob × HttpResponse :=
  let store1 :=
    match job with
    | some j =>
      if identVisibleInCatch "supabaseAdmin" then
        updateStyleJob store j.id (fun r =>
          { r with status := .failed, error_message := some msg, updated_at := now })
      else store
    | none => store
  (store1, ⟨500, .jobj [("error", .jstr msg)]⟩)

/-- STEP 1 (lines 88-109): download every inspiration image in order; the
first failing download throws. Returns the trace of download operations and
either the collected base64 images or the thrown message. -/
def downloadAll (env : WorkerEnv) : List String → List WorkerOp × Except String (List String)
  | [] => ([], .ok [])
  | p :: ps =>
    match env.download p with
    | .error e =>
        ([.downloadObj p],
         .error ("Failed to download inspiration image at " ++ p ++ ": " ++ e))
    | .ok d =>
        (.downloadObj p :: (downloadAll env ps).1,
         (downloadAll env ps).2.map (fun ds => d :: ds))

/-- STEP 3 (lines 174-216): upload each generated image to
`{user_id}/{execId}/{i}.png`, create a signed URL, and insert a
`generated_images` row (insert errors are swallowed by the inner
try/catch at lines 205-215); upload or signing errors throw. -/
def uploadResults (env : WorkerEnv) (uid : String) :
    Nat → List String → List WorkerOp × Except String (List String)
  | _, [] => ([], .ok [])
  | i, _img :: rest =>
    match env.upload (uid ++ "/" ++ env.execId ++ "/" ++ toString i ++ ".png") with
    | .error e =>
        ([.uploadObj (uid ++ "/" ++ env.execId ++ "/" ++ toString i ++ ".png")],
         .error ("Upload failed: " ++ e))
    | .ok _ =>
      match env.sign (uid ++ "/" ++ env.execId ++ "/" ++ toString i ++ ".png") with
      | .error e =>
          ([.uploadObj (uid ++ "/" ++ env.execId ++ "/" ++ toString i ++ ".png"),
            .signUrl (uid ++ "/" ++ env.execId ++ "/" ++ toString i ++ ".png")],
           .error ("Failed to create signed URL: " ++ e))
      | .ok u =>
          (.uploadObj (uid ++ "/" ++ env.execId ++ "/" ++ toString i ++ ".png") ::
             .signUrl (uid ++ "/" ++ env.execId ++ "/" ++ toString i ++ ".png") ::
             .insertImage (uid ++ "/" ++ env.execId ++ "/" ++ toString i ++ ".png") ::
             (uploadResults env uid (i + 1) rest).1,
           (uploadResults env uid (i + 1) rest).2.map (fun us => u :: us))

/-- One invocation of the process-style-jobs worker (the whole `serve`
handler, lines 44-268). Returns the resulting `style_jobs` table, the trace
of operations in execution order, and the HTTP response.

Paths: select error → 500, no mutation (lines 63-69); no QUEUED row →
200 "No jobs to process", no mutation (lines 72-78); otherwise the claimed
job is marked PROCESSING (lines 83-86) before STEP 1 begins, then
downloads, the OpenAI call (empty result data also throws, lines 165-169),
uploads, and the COMPLETED update (lines 218-226); any throw reaches
`workerCatch`. -/
def processStyleJobs (env : WorkerEnv) (store : List StyleJob) :
    List StyleJob × List WorkerOp × HttpResponse :=
  match env.selectFails with
  | some e => (store, [.selectQueued], ⟨500, .jobj [("error", .jstr e)]⟩)
  | none =>
    match selectOldestQueued store with
    | none =>
        (store, [.selectQueued],
         ⟨200, .jobj [("message", .jstr "No jobs to process")]⟩)
    | some job =>
      let store1 := updateStyleJob store job.id (fun r =>
        { r with status := .processing, updated_at := env.now })
      let pre : List WorkerOp := [.selectQueued, .updateJob job.id .processing]
      let t1 := (downloadAll env job.insp_paths).1
      match (downloadAll env job.insp_paths).2 with
      | .error msg =>
          ((workerCatch (some job) msg store1 env.now).1, pre ++ t1,
           (workerCatch (some job) msg store1 env.now).2)
      | .ok imgs =>
        match env.openai imgs with
        | .error msg =>
            ((workerCatch (some job) msg store1 env.now).1, pre ++ t1 ++ [.openaiCall],
             (workerCatch (some job) msg store1 env.now).2)
        | .ok results =>
          if results.isEmpty then
            let msg := "OpenAI response did not contain valid image data"
            ((workerCatch (some job) msg store1 env.now).1, pre ++ t1 ++ [.openaiCall],
             (workerCatch (some job) msg store1 env.now).2)
          else
            let t2 := (uploadResults env job.user_id 0 results).1
            match (uploadResults env job.user_id 0 results).2 with
            | .error msg =>
                ((workerCatch (some job) msg store1 env.now).1,
                 pre ++ t1 ++ [.openaiCall] ++ t2,
                 (workerCatch (some job) msg store1 env.now).2)
            | .ok urls =>
                let store2 := updateStyleJob store1 job.id (fun r =>
                  { r with status := .completed, exec_id := some env.execId,
                           updated_at := env.now })
                (store2,
                 pre ++ t1 ++ [.openaiCall] ++ t2 ++ [.updateJob job.id .completed],
                 ⟨200, .jobj [("message", .jstr "Job processed successfully"),
                              ("job_id", .jstr job.id),
                              ("exec_id", .jstr env.execId),
                              ("images", .jarr (urls.map .jstr))]⟩)

/-!
Style jobs: the Submitter (src/supabase/functions/submit-style-job/index.ts).

The handler extracts the caller's uid from the bearer token (lines 31-48;
the JWT-decoding details are summarized as the resulting `uid`, with
"anonymous" standing for a missing or unparseable token), validates the
prompt, stages the inspiration images into object storage, inserts one
QUEUED `style_jobs` row, fires the worker trigger, and answers
`{job_id, message, status}` with 200; every throw is answered
`{error: message}` with 500 (lines 135-143).
-/

/-- Parsed request body of submit-style-job (lines 50-56). `prompt = none`
models an absent field; the falsy check `if (!prompt)` also rejects the
empty string. -/
structure SubmitReq where
  prompt : Option String
  inspirationImages : List String
  n : Int
  size : String

/-- Environment of one submit-style-job invocation: the
`crypto.randomUUID()` stream (one fresh value per staged image, line 78),
per-path upload outcomes, whether `atob` accepts each base64 payload
(an invalid payload throws InvalidCharacterError at line 80), and the
outcome of the `style_jobs` insert (lines 95-106). -/
structure SubmitEnv where
  uuids : Nat → String
  uploadFails : String → Option String
  atobOk : String → Bool
  insertResult : Except String String

/-- The inserted `style_jobs` row's writer-controlled columns
(lines 97-104): status is always QUEUED and `n` is clamped to 1..4. -/
structure NewStyleJob where
  user_id : String
  prompt : String
  insp_paths : List String
  n : Int
  size : String
  status : JobStatus
  deriving DecidableEq, Repr

/-- Outcome of one submit-style-job invocation: the response, the inserted
row if any, the storage paths staged (in order), and whether the
process-style-jobs trigger was fired (lines 112-125). -/
structure SubmitOutcome where
  response : HttpResponse
  insertedJob : Option NewStyleJob
  stagedPaths : List String
  triggeredWorker : Bool
  deriving Repr

/-- JavaScript `String.prototype.startsWith`, computed structurally over
the character lists. -/
def jsStartsWith (s pre : String) : Bool := pre.toList.isPrefixOf s.toList

/-- JavaScript `s.split(',')` over the character list: the list of
comma-separated segments, in order. -/
def splitOnCommaL : List Char → List (List Char)
  | [] => [[]]
  | c :: cs =>
    if c = ',' then [] :: splitOnCommaL cs
    else
      match splitOnCommaL cs with
      | [] => [[c]]
      | h :: t => (c :: h) :: t

/-- Strip a data-URI prefix (lines 69-71): `s.startsWith('data:') ?
s.split(',')[1] : s`, with the subsequent falsy check of line 73 — `none`
when the result is JS `undefined` (no comma) or the empty string. -/
def extractB64 (s : String) : Option String :=
  if jsStartsWith s "data:" then
    match (splitOnCommaL s.toList).tail.head? with
    | none => none
    | some t => if t.isEmpty then none else some (String.mk t)
  else if s == "" then none else some s

/-- Stage the inspiration images in order (lines 67-92): each staged image
gets a fresh uuid folder `{uid}/inspiration/{uuid}/{i}.png`; the first
invalid-base64, atob, or upload error throws, keeping the paths already
staged. Returns (staged paths, thrown message if any). -/
def stageInspirations (env : SubmitEnv) (uid : String) :
    Nat → List String → List String × Option String
  | _, [] => ([], none)
  | i, img :: rest =>
    match extractB64 img with
    | none => ([], some ("Invalid base64 string for inspiration image " ++ toString i ++ "."))
    | some b64 =>
      if env.atobOk b64 = false then
        ([], some "InvalidCharacterError: Failed to decode base64")
      else
        match env.uploadFails (uid ++ "/inspiration/" ++ env.uuids i ++ "/" ++ toString i ++ ".png") with
        | some e => ([], some ("Failed to upload inspiration image: " ++ e))
        | none =>
          ((uid ++ "/inspiration/" ++ env.uuids i ++ "/" ++ toString i ++ ".png") ::
             (stageInspirations env uid (i + 1) rest).1,
           (stageInspirations env uid (i + 1) rest).2)

/-- Clamp of line 101: `Math.min(4, Math.max(1, Number(n)))`. -/
def clampN (n : Int) : Int := min 4 (max 1 n)

/-- A 500 `{error: message}` response (lines 135-143). -/
def submitErr (msg : String) (staged : List String) : SubmitOutcome :=
  { response := ⟨500, .jobj [("error", .jstr msg)]⟩,
    insertedJob := none, stagedPaths := staged, triggeredWorker := false }

/-- One invocation of submit-style-job (`serve` handler, lines 17-144). -/
def submitStyleJob (uid : String) (body : SubmitReq) (env : SubmitEnv) :
    SubmitOutcome :=
  if uid == "anonymous" then
    submitErr "Authentication required. Please sign in to use this feature." []
  else
    match body.prompt with
    | none => submitErr "Missing required field: prompt." []
    | some p =>
      if p == "" then submitErr "Missing required field: prompt." []
      else
        match (stageInspirations env uid 0 body.inspirationImages).2 with
        | some e => submitErr e (stageInspirations env uid 0 body.inspirationImages).1
        | none =>
          match env.insertResult with
          | .error e =>
              submitErr ("Failed to create job: " ++ e)
                (stageInspirations env uid 0 body.inspirationImages).1
          | .ok jid =>
            { response := ⟨200, .jobj [("job_id", .jstr jid),
                                       ("message", .jstr "Job submitted successfully"),
                                       ("status", .jstr "QUEUED")]⟩,
              insertedJob := some { user_id := uid, prompt := p,
                                    insp_paths :=
                                      (stageInspirations env uid 0 body.inspirationImages).1,
                                    n := clampN body.n, size := body.size,
                                    status := .queued },
              stagedPaths := (stageInspirations env uid 0 body.inspirationImages).1,
              triggeredWorker := true }

/-!
The client poll loop pollJobStatus
(src/src/components/pages/inspiration.tsx, lines 279-411).
-/

/-- Number of polling attempts allowed (line 280). -/
def maxAttempts : Nat := 60

/-- Fixed sleep between attempts in milliseconds (line 281). -/
def pollIntervalMs : Nat := 10000

/-- What one status check observes: the `style_jobs` query may return an
error (lines 300-303), no row (lines 305-308), or the row's status with
`exec_id` and `error_message`; `thrown` models an exception reaching the
catch at lines 393-396. -/
inductive PollResult
  | queryError (msg : String)
  | noData
  | row (status : JobStatus) (execId : Option String) (errorMessage : Option String)
  | thrown (msg : String)
  deriving DecidableEq, Repr

/-- Client-side effects of the poll loop. `jobUpdate` is the effect a
`style_jobs` write would be; pollJobStatus only ever reads, so no branch
emits it. `handleCompleted` summarizes the UI work of the COMPLETED branch
(lines 312-372: fetching `generated_images`, signing URLs, toasts — reads
and UI state only) and `toastFailed` / `toastTimeout` the toasts of lines
375-379 and 383-387. -/
inductive ClientFx
  | logError (msg : String)
  | sleep (ms : Nat)
  | handleCompleted (execId : Option String)
  | toastFailed (msg : Option String)
  | toastTimeout
  | jobUpdate (id : String) (st : JobStatus)
  deriving DecidableEq, Repr

/-- One execution of `checkStatus` (lines 284-397) at the given (already
incremented) attempt number: returns whether polling should stop, and the
effects. Branch order follows the source: query error → continue; no row →
continue; COMPLETED → stop; FAILED → stop; attempt bound reached → stop
with the timeout toast; otherwise continue. The catch path returns
`attempt >= maxAttempts`. -/
def checkStatus (attempt : Nat) (r : PollResult) : Bool × List ClientFx :=
  match r with
  | .queryError m => (false, [.logError m])
  | .noData => (false, [.logError "No job data found"])
  | .row st ex em =>
    if st = .completed then (true, [.handleCompleted ex])
    else if st = .failed then (true, [.toastFailed em])
    else if maxAttempts ≤ attempt then (true, [.toastTimeout])
    else (false, [])
  | .thrown m => (decide (maxAttempts ≤ attempt), [.logError m])

/-- The polling loop (lines 399-410) run against a sequence of observations:
attempt counter incremented at the top of each `checkStatus` call, a
`pollIntervalMs` sleep between attempts. Returns the final attempt count,
whether the loop stopped by itself (false = the observation sequence ran
out with the loop still going), and the effects. -/
def runPollAux (attempt : Nat) : List PollResult → Nat × Bool × List ClientFx
  | [] => (attempt, false, [])
  | r :: rs =>
    if (checkStatus (attempt + 1) r).1 then
      (attempt + 1, true, (checkStatus (attempt + 1) r).2)
    else
      ((runPollAux (attempt + 1) rs).1, (runPollAux (attempt + 1) rs).2.1,
       (checkStatus (attempt + 1) r).2 ++
         .sleep pollIntervalMs :: (runPollAux (attempt + 1) rs).2.2)

/-- pollJobStatus: initial 3000 ms delay (line 400), then the loop. -/
def runPoll (rs : List PollResult) : Nat × Bool × List ClientFx :=
  ((runPollAux 0 rs).1, (runPollAux 0 rs).2.1,
   .sleep 3000 :: (runPollAux 0 rs).2.2)

/-!
Client-side file validation and submission for the lipsync page
(src/src/components/pages/Lipsync.tsx).
-/

/-- The two media inputs of the lipsync form. -/
inductive MediaKind
  | video
  | audio
  deriving DecidableEq, Repr

/-- Expected MIME-type prefix per input (Lipsync.tsx line 75). -/
def expectedMimeStart : MediaKind → String
  | .video => "video/"
  | .audio => "audio/"

/-- A selected browser file: name, declared MIME type, size in bytes. -/
structure ClientFile where
  name : String
  mime : String
  size : Nat
  deriving DecidableEq, Repr

/-- MAX_FILE_SIZE_BYTES = 500 * 1024 * 1024 (Lipsync.tsx lines 57-58). -/
def maxFileSizeBytes : Nat := 500 * 1024 * 1024

/-- Toasts shown by the selection handler. -/
inductive SelToast
  | invalidType (kind : MediaKind)
  | tooLarge (kind : MediaKind)
  deriving DecidableEq, Repr

/-- Outcome of handleFileChange: the file stored into component state
(none = rejected or cleared), the toasts, and whether the input element
was reset. -/
structure FileSelOutcome where
  accepted : Option ClientFile
  toasts : List SelToast
  inputCleared : Bool
  deriving DecidableEq, Repr

/-- handleFileChange (Lipsync.tsx lines 61-98): the previous file state is
cleared first; an absent file just clears; a MIME type not starting with
the expected category prefix is rejected with a destructive toast; a size
strictly above MAX_FILE_SIZE_BYTES is rejected with a destructive toast;
otherwise the file is accepted into state. -/
def handleFileChange (file : Option ClientFile) (kind : MediaKind) : FileSelOutcome :=
  match file with
  | none => { accepted := none, toasts := [], inputCleared := true }
  | some f =>
    if !(jsStartsWith f.mime (expectedMimeStart kind)) then
      { accepted := none, toasts := [.invalidType kind], inputCleared := true }
    else if maxFileSizeBytes < f.size then
      { accepted := none, toasts := [.tooLarge kind], inputCleared := true }
    else
      { accepted := some f, toasts := [], inputCleared := false }

/-- handleSubmit's guard (Lipsync.tsx lines 101-109 and 124-125): the
submit-lipsync-job function is invoked (with both files) only when both
file states are set and a user is present; otherwise the handler returns
after a toast and no invocation happens. -/
def handleSubmitInvokes (videoFile audioFile : Option ClientFile)
    (userPresent : Bool) : Bool :=
  match videoFile, audioFile with
  | some _, some _ => userPresent
  | _, _ => false

/-- Modelled from the spec: the submit-lipsync-job edge function is not
part of src/ (src/unnamed/part_000 Phase 2 step 1 only plans it), so the
server-side Submitter is modelled from the spec. Per §4.1 it "checks
MIME-type prefix matches the expected category (e.g., video/*, audio/*)
and enforces a maximum byte size (reference implementation uses 500 MiB
per file). Rejects with a client error listing which constraint failed",
before staging, Job-row creation, or external submission, and §8.5
requires the size gate server-side. On valid input it stages both files,
creates the PENDING row, submits to the external queue with a callback
URL, marks the row PROCESSING with the external reference, and returns
success with the job id. -/
structure ServerSubmitOutcome where
  response : HttpResponse
  jobCreated : Bool
  externalSubmitted : Bool
  deriving BEq, Repr

/-- Modelled from the spec: environment of one submit-lipsync-job
invocation — staging outcomes for the two files and the external queue
submission outcome (request id or rejection). -/
structure LipsyncSubmitEnv where
  stageVideo : Except String String
  stageAudio : Except String String
  queueSubmit : Except String String
  jobId : String

/-- Modelled from the spec: the submit-lipsync-job server handler's
validation gate and happy path (spec §4.1, §7 "Validation errors ...
never create a Job row", §8.4-§8.5). -/
def submitLipsyncJobModel (videoFile audioFile : ClientFile)
    (env : LipsyncSubmitEnv) : ServerSubmitOutcome :=
  if !(jsStartsWith videoFile.mime "video/") then
    { response := ⟨400, .jobj [("success", .jbool false),
                               ("error", .jstr "Invalid video file type")]⟩,
      jobCreated := false, externalSubmitted := false }
  else if !(jsStartsWith audioFile.mime "audio/") then
    { response := ⟨400, .jobj [("success", .jbool false),
                               ("error", .jstr "Invalid audio file type")]⟩,
      jobCreated := false, externalSubmitted := false }
  else if maxFileSizeBytes < videoFile.size || maxFileSizeBytes < audioFile.size then
    { response := ⟨400, .jobj [("success", .jbool false),
                               ("error", .jstr "File exceeds maximum size")]⟩,
      jobCreated := false, externalSubmitted := false }
  else
    match env.stageVideo, env.stageAudio with
    | .error e, _ =>
        { response := ⟨500, .jobj [("success", .jbool false), ("error", .jstr e)]⟩,
          jobCreated := false, externalSubmitted := false }
    | _, .error e =>
        { response := ⟨500, .jobj [("success", .jbool false), ("error", .jstr e)]⟩,
          jobCreated := false, externalSubmitted := false }
    | .ok _, .ok _ =>
      match env.queueSubmit with
      | .error e =>
          { response := ⟨500, .jobj [("success", .jbool false), ("error", .jstr e)]⟩,
            jobCreated := true, externalSubmitted := false }
      | .ok _ =>
          { response := ⟨200, .jobj [("success", .jbool true),
                                     ("jobId", .jstr env.jobId)]⟩,
            jobCreated := true, externalSubmitted := true }

/-!
Placeholder replacement
(src/supabase/functions/generate-from-template/index.ts, lines 31-42).

`replacePlaceholders` loops over the user-input map keys in order, globally
replacing the regex pattern of two opening braces, optional whitespace, the
key, optional whitespace, two closing braces with the stringified value
(null/undefined become the empty string), then removes remaining
placeholders matching two opening braces, optional whitespace, one or more
word characters, optional whitespace, two closing braces in one final
global pass.

The regex engine is embedded for these two pattern shapes over character
lists. Whitespace is ASCII whitespace (the Unicode extras of the JS class
never occur in the material of the claims). The key is matched literally;
this is exact for keys built from word characters (regex metacharacters in
a template input id are outside the embedding). JS replacement-string
dollar substitution ($$, the matched text, the preceding text, the
following text) is implemented; with no capture groups in the patterns,
dollar-digit stays literal.
-/

/-- The JS word-character class: ASCII letters, digits, underscore. -/
def isWordChar (c : Char) : Bool := c.isAlphanum || c = Char.ofNat 95

/-- Length of the longest prefix whose characters satisfy `p`. -/
def countWhile (p : Char → Bool) : List Char → Nat
  | [] => 0
  | c :: cs => if p c then countWhile p cs + 1 else 0

/-- Match the tail of the key pattern right after the two opening braces:
optional whitespace, the literal key, optional whitespace, two closing
braces; returns the number of characters consumed. -/
def matchKeyLen (key : List Char) (s : List Char) : Option Nat :=
  let w1 := countWhile Char.isWhitespace s
  let s1 := s.drop w1
  if key.isPrefixOf s1 then
    let s2 := s1.drop key.length
    let w2 := countWhile Char.isWhitespace s2
    match s2.drop w2 with
    | c1 :: c2 :: _ => if c1 = rb && c2 = rb then some (w1 + key.length + w2 + 2) else none
    | _ => none
  else none

/-- Match the tail of the generic placeholder pattern right after the two
opening braces: optional whitespace, one or more word characters, optional
whitespace, two closing braces. -/
def matchWordLen (s : List Char) : Option Nat :=
  let w1 := countWhile Char.isWhitespace s
  let s1 := s.drop w1
  let k := countWhile isWordChar s1
  if k = 0 then none
  else
    let s2 := s1.drop k
    let w2 := countWhile Char.isWhitespace s2
    match s2.drop w2 with
    | c1 :: c2 :: _ => if c1 = rb && c2 = rb then some (w1 + k + w2 + 2) else none
    | _ => none

/-- JS GetSubstitution for a string replacement: dollar-dollar gives a
dollar, dollar-ampersand the matched text, dollar-backquote the text
before the match, dollar-quote the text after the match; anything else
after a dollar (including digits — the patterns have no capture groups)
stays literal. -/
def getSubstitution (matched before after : List Char) : List Char → List Char
  | [] => []
  | c :: cs =>
    if c = dollar then
      match cs with
      | [] => [c]
      | d :: ds =>
        if d = dollar then dollar :: getSubstitution matched before after ds
        else if d = Char.ofNat 38 then matched ++ getSubstitution matched before after ds
        else if d = Char.ofNat 96 then before ++ getSubstitution matched before after ds
        else if d = Char.ofNat 39 then after ++ getSubstitution matched before after ds
        else c :: getSubstitution matched before after (d :: ds)
    else c :: getSubstitution matched before after cs

/-- Global regex replace of the key pattern by the replacement string:
left-to-right scan; at a position where the pattern matches, the whole
placeholder is consumed and the substituted replacement emitted, scanning
resuming after the match; otherwise one character is emitted and the scan
advances one position. The scan consumes one character per step; `skip`
counts characters of an already-recognized match still to be passed over
(a match of inner length n consumes the two opening braces plus n
characters, so after the first brace the remaining n + 1 are skipped).
`pre` accumulates the original characters already consumed, for the
dollar-backquote substitution. -/
def replaceKeyAux (key repl : List Char) : Nat → List Char → List Char → List Char
  | _, _, [] => []
  | k + 1, pre, c :: cs => replaceKeyAux key repl k (pre ++ [c]) cs
  | 0, _, [c] => [c]
  | 0, pre, c :: c2 :: rest2 =>
    if c = lb && c2 = lb then
      match matchKeyLen key rest2 with
      | some n =>
        getSubstitution (c :: c2 :: rest2.take n) pre (rest2.drop n) repl
          ++ replaceKeyAux key repl (n + 1) (pre ++ [c]) (c2 :: rest2)
      | none => c :: replaceKeyAux key repl 0 (pre ++ [c]) (c2 :: rest2)
    else c :: replaceKeyAux key repl 0 (pre ++ [c]) (c2 :: rest2)

/-- One global pass removing every matched generic placeholder (the final
`replace` of line 40, replacement empty); same scanning discipline as
`replaceKeyAux`. -/
def removeUnmatchedAux : Nat → List Char → List Char
  | _, [] => []
  | k + 1, _ :: cs => removeUnmatchedAux k cs
  | 0, [c] => [c]
  | 0, c :: c2 :: rest2 =>
    if c = lb && c2 = lb then
      match matchWordLen rest2 with
      | some n => removeUnmatchedAux (n + 1) (c2 :: rest2)
      | none => c :: removeUnmatchedAux 0 (c2 :: rest2)
    else c :: removeUnmatchedAux 0 (c2 :: rest2)

/-- String wrapper for one key replacement pass (line 37). -/
def replaceKeyStr (key val s : String) : String :=
  String.mk (replaceKeyAux key.toList val.toList 0 [] s.toList)

/-- String wrapper for the final placeholder-removal pass (line 40). -/
def removeUnmatchedStr (s : String) : String :=
  String.mk (removeUnmatchedAux 0 s.toList)

/-- A user-input value (`string | number | boolean | undefined | null`,
numbers restricted to integers). -/
inductive UVal
  | vstr (s : String)
  | vint (n : Int)
  | vbool (b : Bool)
  | vnull
  | vundef
  deriving DecidableEq, Repr

/-- Line 35: `values[key] === null || values[key] === undefined ? '' :
String(values[key])`. -/
def uvalToReplacement : UVal → String
  | .vstr s => s
  | .vint n => toString n
  | .vbool true => "true"
  | .vbool false => "false"
  | .vnull => ""
  | .vundef => ""

/-- replacePlaceholders (lines 31-42): fold the key passes over the map in
insertion order, then the final removal pass. -/
def replacePlaceholders (prompt : String) (values : List (String × UVal)) : String :=
  removeUnmatchedStr
    (values.foldl (fun acc kv => replaceKeyStr kv.1 (uvalToReplacement kv.2) acc) prompt)

/-- Whether a string contains a substring matching the generic placeholder
pattern of line 40. -/
def hasPlaceholderAux : List Char → Bool
  | [] => false
  | c :: cs =>
    match cs with
    | [] => false
    | c2 :: rest2 =>
      (c = lb && c2 = lb && (matchWordLen rest2).isSome) || hasPlaceholderAux cs

/-- String wrapper for placeholder detection. -/
def hasPlaceholder (s : String) : Bool := hasPlaceholderAux s.toList

/-!
Concrete fixtures used by witnesses and counterexamples.
-/

/-- A lipsync job sitting in PROCESSING with external reference r1. -/
def jobProcessing : LipsyncJob :=
  { id := "L1", user_id := "u", fal_request_id := some "r1",
    status := .processing, input_video_url := "v.mp4", input_audio_url := "a.wav",
    output_video_url := none, error_message := none, created_at := 0, updated_at := 3 }

/-- A lipsync job already COMPLETED with external reference r1. -/
def jobCompleted : LipsyncJob :=
  { id := "L1", user_id := "u", fal_request_id := some "r1",
    status := .completed, input_video_url := "v.mp4", input_audio_url := "a.wav",
    output_video_url := some "out.mp4", error_message := none, created_at := 0, updated_at := 3 }

/-- A webhook body whose request_id "xyz" does not match r1. -/
def spoofBody : Json :=
  .jobj [("request_id", .jstr "xyz"), ("status", .jstr "OK"),
         ("payload", .jobj [("video", .jobj [("url", .jstr "u.mp4")])])]

/-- A failure webhook body whose request_id matches r1. -/
def errBody : Json :=
  .jobj [("request_id", .jstr "r1"), ("status", .jstr "ERROR"),
         ("error", .jstr "boom")]

/-- A QUEUED style job with one inspiration image. -/
def queuedJob : StyleJob :=
  { id := "job-1", user_id := "u1", prompt := "p",
    insp_paths := ["a.png"], n := 1, size := "1024x1024", status := .queued,
    exec_id := none, error_message := none, created_at := 0, updated_at := 0 }

/-- A worker environment whose storage download fails. -/
def downloadFailEnv : WorkerEnv :=
  { selectFails := none,
    download := fun _ => .error "storage says no", openai := fun _ => .ok ["img"],
    upload := fun _ => .ok (), sign := fun _ => .ok "signed", execId := "E1", now := 5 }

/-- A worker environment where every external operation succeeds. -/
def happyWorkerEnv : WorkerEnv :=
  { selectFails := none,
    download := fun _ => .ok "d", openai := fun _ => .ok ["img"],
    upload := fun _ => .ok (), sign := fun _ => .ok "signed", execId := "E1", now := 5 }

/-- A submit environment where every external operation succeeds. -/
def happySubmitEnv : SubmitEnv :=
  { uuids := fun i => "uu" ++ toString i,
    uploadFails := fun _ => none, atobOk := fun _ => true, insertResult := .ok "J1" }

/-!
Claim theorems.
-/

/-- C1: for every inbound webhook notification addressed to an existing
job, if the body's request_id does not strictly equal the stored
fal_request_id, the handler answers a client-error response (400-class)
and the job table — hence the addressed row with all its fields — is
returned completely unchanged. -/
theorem c1_webhook_mismatch_rejected_row_unchanged
    (store : List LipsyncJob) (jid : String) (job : LipsyncJob)
    (body : Json) (now : Nat)
    (hfind : store.find? (fun j => j.id == jid) = some job)
    (hmis : reqIdMatches (jfield body "request_id") job.fal_request_id = false) :
    (handleLipsyncWebhook store (some jid) body now).1 = store ∧
    400 ≤ (handleLipsyncWebhook store (some jid) body now).2.status ∧
    (handleLipsyncWebhook store (some jid) body now).2.status < 500 := by
  simp [handleLipsyncWebhook, hfind, hmis]

/-- Witness for C1: the spoofed body against the PROCESSING job. -/
theorem c1_webhook_mismatch_rejected_row_unchanged_witness :
    (handleLipsyncWebhook [jobProcessing] (some "L1") spoofBody 9).1 = [jobProcessing] ∧
    400 ≤ (handleLipsyncWebhook [jobProcessing] (some "L1") spoofBody 9).2.status ∧
    (handleLipsyncWebhook [jobProcessing] (some "L1") spoofBody 9).2.status < 500 :=
  c1_webhook_mismatch_rejected_row_unchanged [jobProcessing] "L1" jobProcessing
    spoofBody 9 rfl rfl

/-- C3 (code bug): the worker's claimed job fails during processing (the
inspiration download throws after the job was marked PROCESSING), the
catch block runs and answers 500, yet the job row is NOT updated to FAILED
and error_message stays null, because `supabaseAdmin` is out of scope in
the catch block and the resulting ReferenceError is swallowed. The trace
confirms no FAILED update was issued. -/
theorem c3_failed_processing_leaves_job_processing :
    (processStyleJobs downloadFailEnv [queuedJob]).1 =
      [{ queuedJob with status := .processing, updated_at := 5 }] ∧
    (processStyleJobs downloadFailEnv [queuedJob]).2.2.status = 500 ∧
    ((processStyleJobs downloadFailEnv [queuedJob]).1.all
       (fun j => decide (j.status ≠ .failed) && decide (j.error_message = none))) = true ∧
    (processStyleJobs downloadFailEnv [queuedJob]).2.1 =
      [.selectQueued, .updateJob "job-1" .processing, .downloadObj "a.png"] ∧
    identVisibleInCatch "supabaseAdmin" = false ∧
    tryBlockIdents.contains "supabaseAdmin" = true := by
  refine ⟨rfl, rfl, ?_, rfl, rfl, rfl⟩
  decide

/-- Status writes contained in a worker trace, in order. -/
def statusWrites (t : List WorkerOp) : List (String × JobStatus) :=
  t.filterMap (fun op =>
    match op with
    | .updateJob id st => some (id, st)
    | _ => none)

/-- Fold specification of the oldest-row select: a result is the initial
candidate or a member of the list, and its created_at is minimal among
both. -/
theorem pickOlder_foldl_spec (l : List StyleJob) :
    ∀ (acc : Option StyleJob) (j : StyleJob), l.foldl pickOlder acc = some j →
      (acc = some j ∨ j ∈ l) ∧
      (∀ b, acc = some b → j.created_at ≤ b.created_at) ∧
      (∀ k ∈ l, j.created_at ≤ k.created_at) := by
  induction l with
  | nil =>
    intro acc j h
    simp only [List.foldl_nil] at h
    subst h
    refine ⟨Or.inl rfl, ?_, by simp⟩
    intro b hb
    cases hb
    exact le_refl _
  | cons x xs ih =>
    intro acc j h
    simp only [List.foldl_cons] at h
    obtain ⟨h1, h2, h3⟩ := ih (pickOlder acc x) j h
    have hxle : j.created_at ≤ x.created_at := by
      cases acc with
      | none => exact h2 x rfl
      | some b =>
        simp only [pickOlder] at h2
        by_cases hlt : x.created_at < b.created_at
        · exact h2 x (by simp [hlt])
        · have hb := h2 b (by simp [hlt])
          omega
    refine ⟨?_, ?_, ?_⟩
    · rcases h1 with h1 | h1
      · cases acc with
        | none =>
          simp only [pickOlder] at h1
          have : x = j := by injection h1
          subst this
          exact Or.inr (List.mem_cons_self _ _)
        | some b =>
          simp only [pickOlder] at h1
          by_cases hlt : x.created_at < b.created_at
          · rw [if_pos hlt] at h1
            have : x = j := by injection h1
            subst this
            exact Or.inr (List.mem_cons_self _ _)
          · rw [if_neg hlt] at h1
            exact Or.inl h1
      · exact Or.inr (List.mem_cons_of_mem _ h1)
    · intro b hb
      subst hb
      simp only [pickOlder] at h2
      by_cases hlt : x.created_at < b.created_at
      · have := h2 x (by simp [hlt]); omega
      · exact h2 b (by simp [hlt])
    · intro k hk
      rcases List.mem_cons.mp hk with hk | hk
      · subst hk; exact hxle
      · exact h3 k hk

/-- The select returns a QUEUED member of minimal created_at. -/
theorem selectOldestQueued_spec (store : List StyleJob) (j : StyleJob)
    (h : selectOldestQueued store = some j) :
    j ∈ store ∧ j.status = .queued ∧
    ∀ k ∈ store, k.status = .queued → j.created_at ≤ k.created_at := by
  have hs := pickOlder_foldl_spec (store.filter (fun x => x.status == .queued)) none j h
  have hmem : j ∈ store.filter (fun x => x.status == .queued) := by
    rcases hs.1 with h1 | h1
    · exact absurd h1 (by simp)
    · exact h1
  have hm := List.mem_filter.mp hmem
  refine ⟨hm.1, by simpa using hm.2, ?_⟩
  intro k hk hkq
  exact hs.2.2 k (List.mem_filter.mpr ⟨hk, by simp [hkq]⟩)

/-- A table without QUEUED rows yields no selected job. -/
theorem selectOldestQueued_eq_none (store : List StyleJob)
    (h : ∀ k ∈ store, k.status ≠ .queued) : selectOldestQueued store = none := by
  unfold selectOldestQueued
  have hf : store.filter (fun j => j.status == .queued) = [] := by
    rw [List.filter_eq_nil_iff]
    intro a ha
    simpa using h a ha
  rw [hf]
  rfl

/-- The catch block never changes the table (the FAILED update dies on the
out-of-scope `supabaseAdmin`). -/
theorem workerCatch_store (job : Option StyleJob) (msg : String)
    (store : List StyleJob) (now : Nat) :
    (workerCatch job msg store now).1 = store := by
  cases job <;> simp [workerCatch, identVisibleInCatch, catchVisibleIdents]

/-- The catch block answers 500 with the error message. -/
theorem workerCatch_resp (job : Option StyleJob) (msg : String)
    (store : List StyleJob) (now : Nat) :
    (workerCatch job msg store now).2 = ⟨500, .jobj [("error", .jstr msg)]⟩ := by
  cases job <;> rfl

/-- The download loop performs download operations only. -/
theorem downloadAll_ops (env : WorkerEnv) (ps : List String) :
    ∀ op ∈ (downloadAll env ps).1, ∃ p, op = WorkerOp.downloadObj p := by
  induction ps with
  | nil => intro op hop; simp [downloadAll] at hop
  | cons p ps ih =>
    intro op hop
    unfold downloadAll at hop
    cases hd : env.download p with
    | error e =>
      rw [hd] at hop
      simp at hop
      exact ⟨p, hop⟩
    | ok d =>
      rw [hd] at hop
      simp at hop
      rcases hop with h | h
      · exact ⟨p, h⟩
      · exact ih op h

/-- The upload loop performs upload, sign and insert operations only. -/
theorem uploadResults_ops (env : WorkerEnv) (uid : String) (l : List String) :
    ∀ i, ∀ op ∈ (uploadResults env uid i l).1,
      ∃ p, op = WorkerOp.uploadObj p ∨ op = WorkerOp.signUrl p ∨
           op = WorkerOp.insertImage p := by
  induction l with
  | nil => intro i op hop; simp [uploadResults] at hop
  | cons img rest ih =>
    intro i op hop
    unfold uploadResults at hop
    cases hu : env.upload (uid ++ "/" ++ env.execId ++ "/" ++ toString i ++ ".png") with
    | error e =>
      rw [hu] at hop
      simp at hop
      exact ⟨_, Or.inl hop⟩
    | ok _ =>
      rw [hu] at hop
      cases hs : env.sign (uid ++ "/" ++ env.execId ++ "/" ++ toString i ++ ".png") with
      | error e =>
        rw [hs] at hop
        simp at hop
        rcases hop with h | h
        · exact ⟨_, Or.inl h⟩
        · exact ⟨_, Or.inr (Or.inl h)⟩
      | ok u =>
        rw [hs] at hop
        simp at hop
        rcases hop with h | h | h | h
        · exact ⟨_, Or.inl h⟩
        · exact ⟨_, Or.inr (Or.inl h)⟩
        · exact ⟨_, Or.inr (Or.inr h)⟩
        · exact ih (i + 1) op h

/-- Download traces carry no status write. -/
theorem statusWrites_downloadAll (env : WorkerEnv) (ps : List String) :
    statusWrites (downloadAll env ps).1 = [] := by
  unfold statusWrites
  rw [List.filterMap_eq_nil_iff]
  intro op hop
  obtain ⟨p, hp⟩ := downloadAll_ops env ps op hop
  subst hp
  rfl

/-- Upload traces carry no status write. -/
theorem statusWrites_uploadResults (env : WorkerEnv) (uid : String)
    (i : Nat) (l : List String) :
    statusWrites (uploadResults env uid i l).1 = [] := by
  unfold statusWrites
  rw [List.filterMap_eq_nil_iff]
  intro op hop
  obtain ⟨p, hp⟩ := uploadResults_ops env uid l i op hop
  rcases hp with h | h | h <;> subst h <;> rfl

/-- A row with a different id survives a row-level update untouched. -/
theorem mem_updateStyleJob_of_ne (store : List StyleJob) (jid : String)
    (f : StyleJob → StyleJob) (k : StyleJob) (hk : k ∈ store)
    (hne : k.id ≠ jid) : k ∈ updateStyleJob store jid f := by
  unfold updateStyleJob
  have hmem := List.mem_map_of_mem (fun j => if j.id == jid then f j else j) hk
  simpa [hne] using hmem

/-- Status writes distribute over trace concatenation. -/
theorem statusWrites_append (a b : List WorkerOp) :
    statusWrites (a ++ b) = statusWrites a ++ statusWrites b := by
  simp [statusWrites]

/-- Computation rules for status writes on the operation constructors. -/
theorem statusWrites_nil : statusWrites [] = [] := rfl

/-- The select operation carries no status write. -/
theorem statusWrites_cons_select (t : List WorkerOp) :
    statusWrites (WorkerOp.selectQueued :: t) = statusWrites t := by
  simp [statusWrites]

/-- An update operation contributes its status write. -/
theorem statusWrites_cons_update (id : String) (st : JobStatus) (t : List WorkerOp) :
    statusWrites (WorkerOp.updateJob id st :: t) = (id, st) :: statusWrites t := by
  simp [statusWrites]

/-- The OpenAI call carries no status write. -/
theorem statusWrites_cons_openai (t : List WorkerOp) :
    statusWrites (WorkerOp.openaiCall :: t) = statusWrites t := by
  simp [statusWrites]

/-- An invocation that selects no QUEUED job leaves the table untouched. -/
theorem processStyleJobs_no_claim (env : WorkerEnv) (store : List StyleJob)
    (h : selectOldestQueued store = none) :
    (processStyleJobs env store).1 = store := by
  unfold processStyleJobs
  cases hsf : env.selectFails with
  | some e => rfl
  | none => simp only [h]

/-- An invocation whose QUEUED select errors leaves the table untouched. -/
theorem processStyleJobs_select_error (env : WorkerEnv) (store : List StyleJob)
    (e : String) (h : env.selectFails = some e) :
    (processStyleJobs env store).1 = store := by
  unfold processStyleJobs
  simp only [h]

/-- The trace of an invocation that claims a job starts with the select
followed immediately by the PROCESSING update of the claimed job. -/
theorem processStyleJobs_trace_start (env : WorkerEnv) (store : List StyleJob)
    (job : StyleJob) (hsel : env.selectFails = none)
    (hjob : selectOldestQueued store = some job) :
    (processStyleJobs env store).2.1.take 2 =
      [WorkerOp.selectQueued, WorkerOp.updateJob job.id .processing] := by
  unfold processStyleJobs
  simp only [hsel, hjob]
  rcases hdl : (downloadAll env job.insp_paths).2 with msg | imgs
  · simp [hdl]
  · rcases hoa : env.openai imgs with msg | results
    · simp [hdl, hoa]
    · cases results with
      | nil => simp [hdl, hoa]
      | cons r rs =>
        rcases hup : (uploadResults env job.user_id 0 (r :: rs)).2 with msg | urls
        · simp [hdl, hoa, hup]
        · simp [hdl, hoa, hup]

/-- The status writes of one invocation that claims a job: the PROCESSING
write on the claimed job, optionally followed by its COMPLETED write. -/
theorem processStyleJobs_statusWrites (env : WorkerEnv) (store : List StyleJob)
    (job : StyleJob) (hsel : env.selectFails = none)
    (hjob : selectOldestQueued store = some job) :
    statusWrites (processStyleJobs env store).2.1 = [(job.id, .processing)] ∨
    statusWrites (processStyleJobs env store).2.1 =
      [(job.id, .processing), (job.id, .completed)] := by
  unfold processStyleJobs
  simp only [hsel, hjob]
  rcases hdl : (downloadAll env job.insp_paths).2 with msg | imgs
  · left
    simp [hdl, statusWrites_cons_select, statusWrites_cons_update, statusWrites_cons_openai, statusWrites_nil, statusWrites_append, statusWrites_downloadAll, statusWrites_uploadResults]
  · rcases hoa : env.openai imgs with msg | results
    · left
      simp [hdl, hoa, statusWrites_cons_select, statusWrites_cons_update, statusWrites_cons_openai, statusWrites_nil, statusWrites_append, statusWrites_downloadAll, statusWrites_uploadResults]
    · cases results with
      | nil =>
        left
        simp [hdl, hoa, statusWrites_cons_select, statusWrites_cons_update, statusWrites_cons_openai, statusWrites_nil, statusWrites_append, statusWrites_downloadAll, statusWrites_uploadResults]
      | cons r rs =>
        rcases hup : (uploadResults env job.user_id 0 (r :: rs)).2 with msg | urls
        · left
          simp [hdl, hoa, hup, statusWrites_cons_select, statusWrites_cons_update, statusWrites_cons_openai, statusWrites_nil, statusWrites_append, statusWrites_downloadAll, statusWrites_uploadResults]
        · right
          simp [hdl, hoa, hup, statusWrites_cons_select, statusWrites_cons_update, statusWrites_cons_openai, statusWrites_nil, statusWrites_append, statusWrites_downloadAll, statusWrites_uploadResults]

/-- A row with an id different from the claimed job's survives the whole
invocation untouched. -/
theorem processStyleJobs_others_unchanged (env : WorkerEnv) (store : List StyleJob)
    (job : StyleJob) (hsel : env.selectFails = none)
    (hjob : selectOldestQueued store = some job)
    (k : StyleJob) (hk : k ∈ store) (hne : k.id ≠ job.id) :
    k ∈ (processStyleJobs env store).1 := by
  unfold processStyleJobs
  simp only [hsel, hjob]
  have h1 : ∀ f : StyleJob → StyleJob, k ∈ updateStyleJob store job.id f :=
    fun f => mem_updateStyleJob_of_ne store job.id f k hk hne
  have h2 : ∀ f g : StyleJob → StyleJob,
      k ∈ updateStyleJob (updateStyleJob store job.id f) job.id g :=
    fun f g => mem_updateStyleJob_of_ne _ job.id g k (h1 f) hne
  rcases hdl : (downloadAll env job.insp_paths).2 with msg | imgs
  · simpa [hdl, workerCatch_store] using h1 _
  · rcases hoa : env.openai imgs with msg | results
    · simpa [hdl, hoa, workerCatch_store] using h1 _
    · cases results with
      | nil => simpa [hdl, hoa, workerCatch_store] using h1 _
      | cons r rs =>
        rcases hup : (uploadResults env job.user_id 0 (r :: rs)).2 with msg | urls
        · simpa [hdl, hoa, hup, workerCatch_store] using h1 _
        · simpa [hdl, hoa, hup] using h2 _ _

/-- C5: each worker invocation claims at most one QUEUED job — one of
minimal created_at, QUEUED, and a member of the table — marks it
PROCESSING as the very first write (trace position 1, before any download
or OpenAI operation), directs every status write of the invocation at that
job alone, and leaves every other row untouched; an invocation that finds
no QUEUED job (or whose select errors) performs no job mutation at all. -/
theorem c5_worker_claims_single_oldest_queued
    (env : WorkerEnv) (store : List StyleJob) :
    ((∀ k ∈ store, k.status ≠ .queued) → (processStyleJobs env store).1 = store) ∧
    (∀ e, env.selectFails = some e → (processStyleJobs env store).1 = store) ∧
    (∀ job, env.selectFails = none → selectOldestQueued store = some job →
      job ∈ store ∧ job.status = .queued ∧
      (∀ k ∈ store, k.status = .queued → job.created_at ≤ k.created_at) ∧
      (processStyleJobs env store).2.1.take 2 =
        [WorkerOp.selectQueued, WorkerOp.updateJob job.id .processing] ∧
      (∀ id st, (id, st) ∈ statusWrites (processStyleJobs env store).2.1 →
        id = job.id) ∧
      (∀ k ∈ store, k.id ≠ job.id → k ∈ (processStyleJobs env store).1)) := by
  refine ⟨?_, ?_, ?_⟩
  · intro h
    exact processStyleJobs_no_claim env store (selectOldestQueued_eq_none store h)
  · intro e he
    exact processStyleJobs_select_error env store e he
  · intro job hsel hjob
    obtain ⟨hmem, hq, hmin⟩ := selectOldestQueued_spec store job hjob
    refine ⟨hmem, hq, hmin, processStyleJobs_trace_start env store job hsel hjob, ?_, ?_⟩
    · intro id st hin
      rcases processStyleJobs_statusWrites env store job hsel hjob with hw | hw <;>
        rw [hw] at hin <;> simp at hin
      · exact hin.1
      · rcases hin with h | h
        · exact h.1
        · exact h.1
    · intro k hk hne
      exact processStyleJobs_others_unchanged env store job hsel hjob k hk hne

/-- Witness for C5 at the one-job table and all-successful environment. -/
theorem c5_worker_claims_single_oldest_queued_witness :
    queuedJob ∈ [queuedJob] ∧ queuedJob.status = .queued ∧
    (processStyleJobs happyWorkerEnv [queuedJob]).2.1.take 2 =
      [WorkerOp.selectQueued, WorkerOp.updateJob queuedJob.id .processing] := by
  have h := (c5_worker_claims_single_oldest_queued happyWorkerEnv [queuedJob]).2.2
    queuedJob rfl rfl
  exact ⟨h.1, h.2.1, h.2.2.2.1⟩

/-- Rows produced by a row-level update whose writer only produces terminal
statuses are original rows or terminal rows. -/
theorem mem_updateLipsyncJob_terminal (store : List LipsyncJob) (jid : String)
    (f : LipsyncJob → LipsyncJob) (hf : ∀ x, (f x).status.isTerminal = true) :
    ∀ j ∈ updateLipsyncJob store jid f, j ∈ store ∨ j.status.isTerminal = true := by
  intro j hj
  unfold updateLipsyncJob at hj
  rcases List.mem_map.mp hj with ⟨k, hk, hkj⟩
  by_cases h : (k.id == jid) = true
  · rw [if_pos h] at hkj
    right
    rw [← hkj]
    exact hf k
  · rw [if_neg h] at hkj
    left
    rw [← hkj]
    exact hk

/-- The webhook reconciler only ever writes terminal statuses: every row of
the resulting table is an unchanged input row or carries a terminal status. -/
theorem handleLipsyncWebhook_writes_terminal (store : List LipsyncJob)
    (p : Option String) (body : Json) (now : Nat) :
    ∀ j ∈ (handleLipsyncWebhook store p body now).1,
      j ∈ store ∨ j.status.isTerminal = true := by
  intro j hj
  rcases p with _ | jid
  · exact Or.inl hj
  · rcases hf : store.find? (fun x => x.id == jid) with _ | job
    · simp only [handleLipsyncWebhook, hf] at hj
      exact Or.inl hj
    · by_cases hm : reqIdMatches (jfield body "request_id") job.fal_request_id = false
      · simp only [handleLipsyncWebhook, hf] at hj
        rw [if_pos hm] at hj
        exact Or.inl hj
      · simp only [handleLipsyncWebhook, hf] at hj
        rw [if_neg hm] at hj
        by_cases hok : (jAsString (jfield body "status") == some "OK") = true
        · rw [if_pos hok] at hj
          rcases hurl : jAsString (jchain (jchain (jfield body "payload") "video") "url")
            with _ | url
          · simp only [hurl] at hj
            exact Or.inl hj
          · simp only [hurl] at hj
            refine mem_updateLipsyncJob_terminal store jid _ ?_ j hj
            intro x
            rfl
        · rw [if_neg hok] at hj
          refine mem_updateLipsyncJob_terminal store jid _ ?_ j hj
          intro x
          rfl

/-- C4 counterexample: a COMPLETED job with matching external reference
receives a failure notification; the handler transitions the terminal row
to FAILED, so a row in COMPLETED is not immune to further transitions. -/
theorem c4_counterexample_completed_overwritten_to_failed :
    jobCompleted.status = .completed ∧
    (handleLipsyncWebhook [jobCompleted] (some "L1") errBody 9).1 =
      [{ jobCompleted with status := .failed,
                           error_message := some (jquote "boom"),
                           updated_at := 9 }] := by
  exact ⟨rfl, rfl⟩

/-- C4 (amended): all writers move statuses forward except that the
webhook reconciler overwrites terminal states: the worker's status writes
in any invocation are a prefix of [PROCESSING on the claimed QUEUED job,
COMPLETED on it] — in particular the worker never leaves a terminal state
and never back-transitions — and the webhook reconciler only writes
terminal statuses, so no writer ever moves a row from a terminal state
back to PROCESSING or QUEUED; a terminal row can however be overwritten
with the other terminal status by a replayed or late notification whose
request_id matches. -/
theorem c4_amended_forward_transitions_except_terminal_overwrite :
    (∀ (store : List LipsyncJob) (p : Option String) (body : Json) (now : Nat),
      ∀ j ∈ (handleLipsyncWebhook store p body now).1,
        j ∈ store ∨ j.status.isTerminal = true) ∧
    (∀ (env : WorkerEnv) (store : List StyleJob),
      statusWrites (processStyleJobs env store).2.1 = [] ∨
      ∃ job, selectOldestQueued store = some job ∧ job.status = .queued ∧
        (statusWrites (processStyleJobs env store).2.1 = [(job.id, .processing)] ∨
         statusWrites (processStyleJobs env store).2.1 =
           [(job.id, .processing), (job.id, .completed)])) := by
  constructor
  · exact handleLipsyncWebhook_writes_terminal
  · intro env store
    rcases hsf : env.selectFails with _ | e
    · rcases hjob : selectOldestQueued store with _ | job
      · left
        unfold processStyleJobs
        simp [hsf, hjob, statusWrites]
      · right
        refine ⟨job, rfl, (selectOldestQueued_spec store job hjob).2.1, ?_⟩
        exact processStyleJobs_statusWrites env store job hsf hjob
    · left
      unfold processStyleJobs
      simp [hsf, statusWrites]

/-- Witness for C4 (amended): the success-path worker run and the
counterexample webhook run instantiated concretely. -/
theorem c4_amended_forward_transitions_witness :
    ({ jobCompleted with status := JobStatus.failed,
                         error_message := some (jquote "boom"),
                         updated_at := 9 } ∈
       (handleLipsyncWebhook [jobCompleted] (some "L1") errBody 9).1 →
     ({ jobCompleted with status := JobStatus.failed,
                          error_message := some (jquote "boom"),
                          updated_at := 9 } ∈ ([jobCompleted] : List LipsyncJob) ∨
      JobStatus.isTerminal .failed = true)) ∧
    (statusWrites (processStyleJobs happyWorkerEnv [queuedJob]).2.1 = [] ∨
      ∃ job, selectOldestQueued [queuedJob] = some job ∧ job.status = .queued ∧
        (statusWrites (processStyleJobs happyWorkerEnv [queuedJob]).2.1 =
           [(job.id, .processing)] ∨
         statusWrites (processStyleJobs happyWorkerEnv [queuedJob]).2.1 =
           [(job.id, .processing), (job.id, .completed)])) := by
  constructor
  · intro hmem
    exact c4_amended_forward_transitions_except_terminal_overwrite.1
      [jobCompleted] (some "L1") errBody 9 _ hmem
  · exact c4_amended_forward_transitions_except_terminal_overwrite.2
      happyWorkerEnv [queuedJob]

/-- No branch of a status check ever emits a job write. -/
theorem checkStatus_no_jobUpdate (a : Nat) (r : PollResult)
    (id : String) (st : JobStatus) :
    ClientFx.jobUpdate id st ∉ (checkStatus a r).2 := by
  rcases r with m | _ | ⟨s, ex, em⟩ | m
  · simp [checkStatus]
  · simp [checkStatus]
  · by_cases h1 : s = JobStatus.completed
    · simp [checkStatus, h1]
    · by_cases h2 : s = JobStatus.failed
      · simp [checkStatus, h1, h2]
      · by_cases h3 : maxAttempts ≤ a
        · simp [checkStatus, h1, h2, h3]
        · simp [checkStatus, h1, h2, h3]
  · simp [checkStatus]

/-- The poll loop never emits a job write. -/
theorem runPollAux_no_jobUpdate (rs : List PollResult) :
    ∀ (attempt : Nat) (id : String) (st : JobStatus),
      ClientFx.jobUpdate id st ∉ (runPollAux attempt rs).2.2 := by
  induction rs with
  | nil => intro attempt id st; simp [runPollAux]
  | cons r rs ih =>
    intro attempt id st
    unfold runPollAux
    by_cases hstop : (checkStatus (attempt + 1) r).1 = true
    · simp only [hstop, if_true]
      exact checkStatus_no_jobUpdate (attempt + 1) r id st
    · simp only [Bool.not_eq_true] at hstop
      simp only [hstop, Bool.false_eq_true, if_false]
      intro hmem
      rcases List.mem_append.mp hmem with h | h
      · exact checkStatus_no_jobUpdate (attempt + 1) r id st h
      · rcases List.mem_cons.mp h with h | h
        · exact ClientFx.noConfusion h
        · exact ih (attempt + 1) id st h

/-- The sleeps of the poll loop body are all the fixed poll interval. -/
theorem runPollAux_sleeps (rs : List PollResult) :
    ∀ (attempt ms : Nat), ClientFx.sleep ms ∈ (runPollAux attempt rs).2.2 →
      ms = pollIntervalMs := by
  induction rs with
  | nil => intro attempt ms h; simp [runPollAux] at h
  | cons r rs ih =>
    intro attempt ms h
    unfold runPollAux at h
    have hbr : ∀ a, ClientFx.sleep ms ∈ (checkStatus a r).2 → False := by
      intro a hmem
      rcases r with m | _ | ⟨s, ex, em⟩ | m
      · simp [checkStatus] at hmem
      · simp [checkStatus] at hmem
      · by_cases h1 : s = JobStatus.completed
        · simp [checkStatus, h1] at hmem
        · by_cases h2 : s = JobStatus.failed
          · simp [checkStatus, h1, h2] at hmem
          · by_cases h3 : maxAttempts ≤ a
            · simp [checkStatus, h1, h2, h3] at hmem
            · simp [checkStatus, h1, h2, h3] at hmem
      · simp [checkStatus] at hmem
    by_cases hstop : (checkStatus (attempt + 1) r).1 = true
    · simp only [hstop, if_true] at h
      exact absurd h (fun hm => hbr _ hm)
    · simp only [Bool.not_eq_true] at hstop
      simp only [hstop, Bool.false_eq_true, if_false] at h
      rcases List.mem_append.mp h with h | h
      · exact absurd h (fun hm => hbr _ hm)
      · rcases List.mem_cons.mp h with h | h
        · injection h
        · exact ih (attempt + 1) ms h

/-- A run on successful non-terminal observations stops exactly when the
attempt counter reaches the bound. -/
theorem runPollAux_nonterminal_stops (rs : List PollResult) :
    ∀ attempt : Nat,
      (∀ r ∈ rs, ∃ st ex em, r = PollResult.row st ex em ∧
        st ≠ JobStatus.completed ∧ st ≠ JobStatus.failed) →
      attempt < maxAttempts → maxAttempts ≤ attempt + rs.length →
      (runPollAux attempt rs).1 = maxAttempts ∧
      (runPollAux attempt rs).2.1 = true ∧
      ClientFx.toastTimeout ∈ (runPollAux attempt rs).2.2 := by
  induction rs with
  | nil =>
    intro attempt hall hlt hlen
    simp at hlen
    omega
  | cons r rs ih =>
    intro attempt hall hlt hlen
    obtain ⟨st, ex, em, hr, hnc, hnf⟩ := hall r (List.mem_cons_self _ _)
    subst hr
    unfold runPollAux
    by_cases hstop : maxAttempts ≤ attempt + 1
    · have ha : attempt + 1 = maxAttempts := by omega
      simp only [checkStatus, if_neg hnc, if_neg hnf, if_pos hstop]
      simp [ha]
    · have hcs : (checkStatus (attempt + 1) (PollResult.row st ex em)) = (false, []) := by
        simp [checkStatus, hnc, hnf, hstop]
      rw [hcs]
      simp only [if_false, Bool.false_eq_true]
      have hrec := ih (attempt + 1)
        (fun x hx => hall x (List.mem_cons_of_mem _ hx))
        (by omega) (by simp at hlen ⊢; omega)
      refine ⟨hrec.1, hrec.2.1, ?_⟩
      simp only [List.nil_append]
      exact List.mem_cons_of_mem _ hrec.2.2

/-- C2 counterexample: an execution in which every status check's query
errors observes no terminal status, yet after 61 attempts the loop is
still running — the query-error branch returns "continue" without ever
consulting the attempt bound, so the loop is not bounded by 60 attempts. -/
theorem c2_counterexample_query_errors_unbounded :
    (runPoll (List.replicate 61 (PollResult.queryError "db error"))).1 = 61 ∧
    (runPoll (List.replicate 61 (PollResult.queryError "db error"))).2.1 = false := by
  exact ⟨rfl, rfl⟩

/-- C2 (amended): the poll loop never writes any status to the job row
(no branch emits a job write), sleeps exactly the fixed 10-second interval
between attempts, and — whenever every status check successfully returns
the job row with a non-terminal status — stops after exactly 60 attempts
with the "check later" timeout toast; however a status check that errors
or finds no row continues without consulting the attempt bound, so such
executions are not bounded by the attempt count. -/
theorem c2_amended_bounded_polling_on_successful_checks (rs : List PollResult) :
    (∀ id st, ClientFx.jobUpdate id st ∉ (runPoll rs).2.2) ∧
    (∀ ms, ClientFx.sleep ms ∈ (runPoll rs).2.2 → ms = 3000 ∨ ms = pollIntervalMs) ∧
    ((∀ r ∈ rs, ∃ st ex em, r = PollResult.row st ex em ∧
        st ≠ JobStatus.completed ∧ st ≠ JobStatus.failed) →
      maxAttempts ≤ rs.length →
      (runPoll rs).1 = maxAttempts ∧ (runPoll rs).2.1 = true ∧
      ClientFx.toastTimeout ∈ (runPoll rs).2.2) := by
  refine ⟨?_, ?_, ?_⟩
  · intro id st hmem
    unfold runPoll at hmem
    rcases List.mem_cons.mp hmem with h | h
    · exact ClientFx.noConfusion h
    · exact runPollAux_no_jobUpdate rs 0 id st h
  · intro ms hmem
    unfold runPoll at hmem
    rcases List.mem_cons.mp hmem with h | h
    · left
      injection h
    · right
      exact runPollAux_sleeps rs 0 ms h
  · intro hall hlen
    have h := runPollAux_nonterminal_stops rs 0 hall (by simp [maxAttempts]) (by simpa)
    exact ⟨h.1, h.2.1, List.mem_cons_of_mem _ h.2.2⟩

/-- Witness for C2 (amended): sixty successful PROCESSING observations. -/
theorem c2_amended_bounded_polling_witness :
    (runPoll (List.replicate 60 (PollResult.row JobStatus.processing none none))).1 =
      maxAttempts ∧
    (runPoll (List.replicate 60 (PollResult.row JobStatus.processing none none))).2.1 =
      true := by
  have h := (c2_amended_bounded_polling_on_successful_checks
    (List.replicate 60 (PollResult.row JobStatus.processing none none))).2.2
    (by
      intro r hr
      rcases List.eq_of_mem_replicate hr with rfl
      exact ⟨JobStatus.processing, none, none, rfl, by decide, by decide⟩)
    (by simp [maxAttempts])
  exact ⟨h.1, h.2.1⟩

/-- The request body of a well-formed style submission with no images. -/
def plainReq : SubmitReq :=
  { prompt := some "hi", inspirationImages := [], n := 1, size := "1024x1024" }

/-- A submission whose second inspiration image is an invalid data URI. -/
def badSecondImageReq : SubmitReq :=
  { prompt := some "hello", inspirationImages := ["QUJD", "data:"], n := 1,
    size := "auto" }

/-- C6 counterexample: a successful submit-style-job response answers 200
with body fields job_id, message and status — it carries no `success`
field at all (and error responses carry a bare `error` field, also with no
`success: false`), so the submission endpoint's responses are not of the
claimed shape. -/
theorem c6_counterexample_response_without_success_field :
    (submitStyleJob "u1" plainReq happySubmitEnv).response.status = 200 ∧
    hasField (submitStyleJob "u1" plainReq happySubmitEnv).response.body
      "success" = false ∧
    hasField (submitStyleJob "u1" plainReq happySubmitEnv).response.body
      "job_id" = true ∧
    hasField (submitStyleJob "anonymous" plainReq happySubmitEnv).response.body
      "success" = false ∧
    hasField (submitStyleJob "anonymous" plainReq happySubmitEnv).response.body
      "error" = true := by
  exact ⟨rfl, rfl, rfl, rfl, rfl⟩

/-- C6 (amended): every submit-style-job response is either 200 with the
body shape job_id/message/status (and a row was inserted) or 500 with the
body shape error (and no row was inserted); the claimed
success/jobId/error shape belongs to the planned submit-lipsync-job
endpoint, not to submit-style-job. -/
theorem c6_amended_submit_response_shape (uid : String) (body : SubmitReq)
    (env : SubmitEnv) :
    (∃ jid, (submitStyleJob uid body env).response =
        ⟨200, .jobj [("job_id", .jstr jid),
                     ("message", .jstr "Job submitted successfully"),
                     ("status", .jstr "QUEUED")]⟩ ∧
      (submitStyleJob uid body env).insertedJob ≠ none) ∨
    (∃ msg, (submitStyleJob uid body env).response =
        ⟨500, .jobj [("error", .jstr msg)]⟩ ∧
      (submitStyleJob uid body env).insertedJob = none) := by
  unfold submitStyleJob
  by_cases h1 : (uid == "anonymous") = true
  · simp only [h1, if_true]
    right
    exact ⟨_, rfl, rfl⟩
  · simp only [Bool.not_eq_true] at h1
    simp only [h1, Bool.false_eq_true, if_false]
    rcases hp : body.prompt with _ | p
    · right
      exact ⟨_, rfl, rfl⟩
    · by_cases h2 : (p == "") = true
      · simp only [h2, if_true]
        right
        exact ⟨_, rfl, rfl⟩
      · simp only [Bool.not_eq_true] at h2
        simp only [h2, Bool.false_eq_true, if_false]
        rcases hstg : (stageInspirations env uid 0 body.inspirationImages).2 with _ | e
        · rcases hins : env.insertResult with e | jid
          · right
            exact ⟨_, rfl, rfl⟩
          · left
            exact ⟨jid, rfl, by simp⟩
        · right
          exact ⟨_, rfl, rfl⟩

/-- Outcome dichotomy of one submit-style-job invocation: a 200 response
with an inserted row and the worker trigger fired, or a 500 response with
no inserted row and no trigger. -/
theorem submitStyleJob_cases (uid : String) (body : SubmitReq) (env : SubmitEnv) :
    ((submitStyleJob uid body env).response.status = 200 ∧
     (submitStyleJob uid body env).insertedJob ≠ none ∧
     (submitStyleJob uid body env).triggeredWorker = true) ∨
    ((submitStyleJob uid body env).response.status = 500 ∧
     (submitStyleJob uid body env).insertedJob = none ∧
     (submitStyleJob uid body env).triggeredWorker = false) := by
  unfold submitStyleJob
  by_cases h1 : (uid == "anonymous") = true
  · simp only [h1, if_true]
    right
    exact ⟨rfl, rfl, rfl⟩
  · simp only [Bool.not_eq_true] at h1
    simp only [h1, Bool.false_eq_true, if_false]
    rcases hp : body.prompt with _ | p
    · right
      exact ⟨rfl, rfl, rfl⟩
    · by_cases h2 : (p == "") = true
      · simp only [h2, if_true]
        right
        exact ⟨rfl, rfl, rfl⟩
      · simp only [Bool.not_eq_true] at h2
        simp only [h2, Bool.false_eq_true, if_false]
        rcases hstg : (stageInspirations env uid 0 body.inspirationImages).2 with _ | e
        · rcases hins : env.insertResult with e | jid
          · right
            exact ⟨rfl, rfl, rfl⟩
          · left
            exact ⟨rfl, by simp, rfl⟩
        · right
          exact ⟨rfl, rfl, rfl⟩

/-- C9 counterexample: a submission with a valid prompt whose second
inspiration image fails the base64 validation is rejected with an error
and creates no job row, but the first image was already staged into
object storage before the rejection — storage is NOT unchanged on this
validation error. -/
theorem c9_counterexample_storage_changed_on_validation_error :
    (submitStyleJob "u1" badSecondImageReq happySubmitEnv).response.status = 500 ∧
    (submitStyleJob "u1" badSecondImageReq happySubmitEnv).insertedJob = none ∧
    (submitStyleJob "u1" badSecondImageReq happySubmitEnv).stagedPaths =
      ["u1/inspiration/uu0/0.png"] := by
  exact ⟨rfl, rfl, rfl⟩

/-- C9 (amended): every submission rejected with an error creates no job
row and fires no worker trigger, and a submission failing the prompt (or
authentication) validation additionally stages nothing into storage; a
base64-validation failure on the i-th inspiration image, however, occurs
only after images 0..i-1 were already staged, so object storage can be
changed by a rejected submission. -/
theorem c9_amended_validation_creates_no_job_row (uid : String)
    (body : SubmitReq) (env : SubmitEnv) :
    ((submitStyleJob uid body env).response.status ≠ 200 →
      (submitStyleJob uid body env).insertedJob = none ∧
      (submitStyleJob uid body env).triggeredWorker = false) ∧
    ((uid = "anonymous" ∨ body.prompt = none ∨ body.prompt = some "") →
      (submitStyleJob uid body env).insertedJob = none ∧
      (submitStyleJob uid body env).stagedPaths = []) := by
  constructor
  · intro hne
    rcases submitStyleJob_cases uid body env with h | h
    · exact absurd h.1 hne
    · exact ⟨h.2.1, h.2.2⟩
  · intro hval
    unfold submitStyleJob
    by_cases h1 : (uid == "anonymous") = true
    · simp only [h1, if_true]
      exact ⟨rfl, rfl⟩
    · simp only [Bool.not_eq_true] at h1
      simp only [h1, Bool.false_eq_true, if_false]
      rcases hval with hv | hv | hv
      · subst hv
        simp at h1
      · simp only [hv]
        exact ⟨rfl, rfl⟩
      · simp only [hv]
        exact ⟨rfl, rfl⟩

/-- Witness for C9 (amended): the empty-prompt submission. -/
theorem c9_amended_validation_creates_no_job_row_witness :
    (submitStyleJob "u1"
       { prompt := some "", inspirationImages := ["QUJD"], n := 1,
         size := "auto" } happySubmitEnv).insertedJob = none ∧
    (submitStyleJob "u1"
       { prompt := some "", inspirationImages := ["QUJD"], n := 1,
         size := "auto" } happySubmitEnv).stagedPaths = [] := by
  exact (c9_amended_validation_creates_no_job_row "u1"
    { prompt := some "", inspirationImages := ["QUJD"], n := 1, size := "auto" }
    happySubmitEnv).2 (Or.inr (Or.inr rfl))

/-- C7: a selected file whose declared MIME type does not start with the
expected category prefix is rejected at selection time with a destructive
toast, never enters the submission state, and a submission handler with an
empty file slot performs no function invocation — hence no job row and no
external submission can result from the rejected file. -/
theorem c7_mime_prefix_gate_rejects_at_selection
    (f : ClientFile) (kind : MediaKind)
    (h : jsStartsWith f.mime (expectedMimeStart kind) = false) :
    (handleFileChange (some f) kind).accepted = none ∧
    (handleFileChange (some f) kind).toasts = [SelToast.invalidType kind] ∧
    (∀ (other : Option ClientFile) (user : Bool),
      handleSubmitInvokes none other user = false ∧
      handleSubmitInvokes other none user = false) := by
  refine ⟨?_, ?_, ?_⟩
  · simp [handleFileChange, h]
  · simp [handleFileChange, h]
  · intro other user
    cases other <;> exact ⟨rfl, rfl⟩

/-- Witness for C7: an audio file offered to the video input. -/
theorem c7_mime_prefix_gate_rejects_at_selection_witness :
    (handleFileChange (some ⟨"song.mp3", "audio/mpeg", 1000⟩) MediaKind.video).accepted
      = none ∧
    (handleFileChange (some ⟨"song.mp3", "audio/mpeg", 1000⟩) MediaKind.video).toasts
      = [SelToast.invalidType MediaKind.video] := by
  have h := c7_mime_prefix_gate_rejects_at_selection
    ⟨"song.mp3", "audio/mpeg", 1000⟩ MediaKind.video (by decide)
  exact ⟨h.1, h.2.1⟩

/-- C8: a file strictly larger than the 500 MiB maximum is rejected on
both sides: client-side at selection time (the file never enters the
submission state; when its MIME type is acceptable the size toast is
shown), and server-side by the submission function with a client error
before any Job row is created or any external submission occurs —
whichever input slot the oversized file occupies. -/
theorem c8_size_gate_client_and_server
    (f g : ClientFile) (kind : MediaKind) (env : LipsyncSubmitEnv)
    (hf : maxFileSizeBytes < f.size) :
    (handleFileChange (some f) kind).accepted = none ∧
    (jsStartsWith f.mime (expectedMimeStart kind) = true →
      (handleFileChange (some f) kind).toasts = [SelToast.tooLarge kind]) ∧
    ((submitLipsyncJobModel f g env).jobCreated = false ∧
     (submitLipsyncJobModel f g env).externalSubmitted = false ∧
     (submitLipsyncJobModel f g env).response.status = 400) ∧
    ((submitLipsyncJobModel g f env).jobCreated = false ∧
     (submitLipsyncJobModel g f env).externalSubmitted = false ∧
     (submitLipsyncJobModel g f env).response.status = 400) := by
  have hnot : ¬ f.size ≤ maxFileSizeBytes := by omega
  refine ⟨?_, ?_, ?_, ?_⟩
  · by_cases hm : jsStartsWith f.mime (expectedMimeStart kind) = true
    · simp [handleFileChange, hm, hf]
    · simp only [Bool.not_eq_true] at hm
      simp [handleFileChange, hm]
  · intro hm
    simp [handleFileChange, hm, hf]
  · by_cases hv : jsStartsWith f.mime "video/" = true
    · by_cases ha : jsStartsWith g.mime "audio/" = true
      · have hsz : (maxFileSizeBytes < f.size || maxFileSizeBytes < g.size) = true := by
          simp [hf]
        simp [submitLipsyncJobModel, hv, ha, hsz]
      · simp only [Bool.not_eq_true] at ha
        simp [submitLipsyncJobModel, hv, ha]
    · simp only [Bool.not_eq_true] at hv
      simp [submitLipsyncJobModel, hv]
  · by_cases hv : jsStartsWith g.mime "video/" = true
    · by_cases ha : jsStartsWith f.mime "audio/" = true
      · have hsz : (maxFileSizeBytes < g.size || maxFileSizeBytes < f.size) = true := by
          simp [hf]
        simp [submitLipsyncJobModel, hv, ha, hsz]
      · simp only [Bool.not_eq_true] at ha
        simp [submitLipsyncJobModel, hv, ha]
    · simp only [Bool.not_eq_true] at hv
      simp [submitLipsyncJobModel, hv]

/-- Witness for C8: a video file one byte over the 500 MiB limit. -/
theorem c8_size_gate_client_and_server_witness :
    (handleFileChange
       (some ⟨"big.mp4", "video/mp4", 500 * 1024 * 1024 + 1⟩) MediaKind.video).accepted
      = none ∧
    (submitLipsyncJobModel ⟨"big.mp4", "video/mp4", 500 * 1024 * 1024 + 1⟩
       ⟨"a.wav", "audio/wav", 100⟩
       ⟨.ok "v-url", .ok "a-url", .ok "req-1", "J1"⟩).jobCreated = false := by
  have h := c8_size_gate_client_and_server
    ⟨"big.mp4", "video/mp4", 500 * 1024 * 1024 + 1⟩ ⟨"a.wav", "audio/wav", 100⟩
    MediaKind.video ⟨.ok "v-url", .ok "a-url", .ok "req-1", "J1"⟩
    (by decide)
  exact ⟨h.1, h.2.2.1.1⟩

/-- The nested-placeholder base prompt of the C10 counterexample. -/
def nestedPrompt : String :=
  String.mk [lb, lb, 'x', lb, lb, 'y', rb, rb, 'z', rb, rb]

/-- C10 counterexample: on the base prompt rendering as two opening
braces, x, an inner placeholder over y, z, two closing braces — with an
empty user-input map — the single removal pass deletes the inner
placeholder and the surrounding text joins into a fresh placeholder over
xz, which stays in the returned prompt; the returned prompt therefore
still contains a placeholder of the removable form. -/
theorem c10_counterexample_removal_leaves_new_placeholder :
    replacePlaceholders nestedPrompt [] = String.mk [lb, lb, 'x', 'z', rb, rb] ∧
    hasPlaceholder (replacePlaceholders nestedPrompt []) = true := by
  exact ⟨rfl, rfl⟩

/-!
Template model for the amended C10 statement: a base prompt whose braces
occur only as complete non-nested placeholders over word-character keys,
represented as a list of segments.
-/

/-- A template segment: literal text or a placeholder over a key. -/
inductive Seg
  | lit (s : String)
  | ph (key : String)
  deriving DecidableEq, Repr

/-- Characters of one segment: a placeholder renders as two opening
braces, the key, two closing braces. -/
def renderSegL : Seg → List Char
  | .lit s => s.toList
  | .ph k => lb :: lb :: (k.toList ++ [rb, rb])

/-- Characters of a whole template. -/
def renderTemplateL (segs : List Seg) : List Char := (segs.map renderSegL).flatten

/-- The template as a string. -/
def renderTemplate (segs : List Seg) : String := String.mk (renderTemplateL segs)

/-- No brace characters. -/
def braceFreeL (l : List Char) : Bool := l.all (fun c => !(c = lb) && !(c = rb))

/-- No dollar characters. -/
def noDollarL (l : List Char) : Bool := l.all (fun c => !(c = dollar))

/-- A nonempty run of word characters. -/
def wordL (l : List Char) : Bool := !l.isEmpty && l.all isWordChar

/-- A well-formed segment: brace-free literal text, or a word key. -/
def goodSeg : Seg → Bool
  | .lit s => braceFreeL s.toList
  | .ph k => wordL k.toList

/-- A well-formed user-input entry: a word key and a brace- and
dollar-free stringified value. -/
def goodEntry (kv : String × UVal) : Bool :=
  wordL kv.1.toList && braceFreeL (uvalToReplacement kv.2).toList &&
    noDollarL (uvalToReplacement kv.2).toList

/-- Effect of one key pass on one segment: the matching placeholder
becomes the literal replacement. -/
def passSeg (k2 r : String) : Seg → Seg
  | .lit s => .lit s
  | .ph k => if k = k2 then .lit r else .ph k

/-- Effect of all passes on one segment, in map order. -/
def applyEntrySeg (values : List (String × UVal)) (sg : Seg) : Seg :=
  values.foldl (fun s kv => passSeg kv.1 (uvalToReplacement kv.2) s) sg

/-- The expected final text of one segment: a literal stays, a placeholder
whose key is in the map becomes the stringified value, any other
placeholder is removed. -/
def substSeg (values : List (String × UVal)) : Seg → String
  | .lit s => s
  | .ph k =>
    match values.find? (fun kv => kv.1 == k) with
    | some kv => uvalToReplacement kv.2
    | none => ""

/-- Characters left of one segment by the removal pass. -/
def dropPhL : Seg → List Char
  | .lit s => s.toList
  | .ph _ => []

/-- Word characters are not braces, dollars, or whitespace; the brace and
dollar characters are not word characters. Facts used throughout. -/
theorem isWordChar_not_special (c : Char) (h : isWordChar c = true) :
    c ≠ lb ∧ c ≠ rb ∧ c.isWhitespace = false := by
  refine ⟨?_, ?_, ?_⟩
  · intro he
    subst he
    exact absurd h (by decide)
  · intro he
    subst he
    exact absurd h (by decide)
  · by_contra hw
    simp only [Bool.not_eq_false] at hw
    have : c = ' ' ∨ c = '\t' ∨ c = '\r' ∨ c = '\n' := by
      revert hw
      unfold Char.isWhitespace
      intro hw
      rcases Bool.or_eq_true _ _ |>.mp hw with h1 | h1
      · rcases Bool.or_eq_true _ _ |>.mp h1 with h2 | h2
        · rcases Bool.or_eq_true _ _ |>.mp h2 with h3 | h3
          · exact Or.inl (by simpa using h3)
          · exact Or.inr (Or.inl (by simpa using h3))
        · exact Or.inr (Or.inr (Or.inl (by simpa using h2)))
      · exact Or.inr (Or.inr (Or.inr (by simpa using h1)))
    rcases this with rfl | rfl | rfl | rfl <;> exact absurd h (by decide)

/-- countWhile of a list whose head fails the predicate. -/
theorem countWhile_head_false (p : Char → Bool) (c : Char) (t : List Char)
    (h : p c = false) : countWhile p (c :: t) = 0 := by
  simp [countWhile, h]

/-- countWhile over a satisfying run followed by a failing head. -/
theorem countWhile_run (p : Char → Bool) (u : List Char) (d : Char) (t : List Char)
    (hu : ∀ c ∈ u, p c = true) (hd : p d = false) :
    countWhile p (u ++ d :: t) = u.length := by
  induction u with
  | nil => simp [countWhile, hd]
  | cons c u ih =>
    have hc := hu c (List.mem_cons_self _ _)
    have ih2 := ih (fun x hx => hu x (List.mem_cons_of_mem _ hx))
    simp [countWhile, hc, ih2]

/-- Take of an append at exactly the first part plus an offset. -/
theorem take_append_exact (u t : List Char) (m : Nat) :
    (u ++ t).take (u.length + m) = u ++ t.take m := by
  induction u with
  | nil => simp
  | cons c u ih => simp [List.take, Nat.succ_add, ih]

/-- Drop of an append at exactly the first part plus an offset. -/
theorem drop_append_exact (u t : List Char) (m : Nat) :
    (u ++ t).drop (u.length + m) = t.drop m := by
  induction u with
  | nil => simp
  | cons c u ih => simp [List.drop, Nat.succ_add, ih]

/-- A list is a Boolean prefix of itself followed by anything. -/
theorem isPrefixOf_append_self (u t : List Char) :
    u.isPrefixOf (u ++ t) = true := by
  induction u with
  | nil => simp [List.isPrefixOf]
  | cons c u ih => simp [List.isPrefixOf, ih]

/-- The key matcher at its own placeholder: after the opening braces the
input is the key, the closing braces, and the continuation; the matcher
consumes the key plus the closing braces. -/
theorem matchKeyLen_self (k t : List Char) (hk : wordL k = true) :
    matchKeyLen k (k ++ [rb, rb] ++ t) = some (k.length + 2) := by
  rcases k with _ | ⟨e, es⟩
  · exact absurd hk (by simp [wordL])
  have hall : ∀ c ∈ e :: es, isWordChar c = true := by
    intro c hc
    have := (Bool.and_eq_true _ _).mp hk
    exact List.all_eq_true.mp this.2 c hc
  have hw1 : countWhile Char.isWhitespace ((e :: es) ++ [rb, rb] ++ t) = 0 := by
    apply countWhile_head_false
    exact (isWordChar_not_special e (hall e (List.mem_cons_self _ _))).2.2
  unfold matchKeyLen
  rw [hw1]
  simp only [List.drop_zero]
  have hpre : (e :: es).isPrefixOf ((e :: es) ++ [rb, rb] ++ t) = true := by
    rw [List.append_assoc]
    exact isPrefixOf_append_self _ _
  rw [hpre]
  simp only [if_true]
  have hdrop : ((e :: es) ++ [rb, rb] ++ t).drop (e :: es).length = rb :: rb :: t := by
    rw [List.append_assoc]
    have h0 := drop_append_exact (e :: es) ([rb, rb] ++ t) 0
    simp only [Nat.add_zero, List.drop_zero] at h0
    simpa using h0
  rw [hdrop]
  have hw2 : countWhile Char.isWhitespace (rb :: rb :: t) = 0 :=
    countWhile_head_false _ _ _ (by decide)
  rw [hw2]
  simp

/-- The word matcher at a good placeholder: after the opening braces the
input is the key, the closing braces, and the continuation; the matcher
consumes the key plus the closing braces. -/
theorem matchWordLen_self (k t : List Char) (hk : wordL k = true) :
    matchWordLen (k ++ [rb, rb] ++ t) = some (k.length + 2) := by
  rcases k with _ | ⟨e, es⟩
  · exact absurd hk (by simp [wordL])
  have hall : ∀ c ∈ e :: es, isWordChar c = true := by
    intro c hc
    have := (Bool.and_eq_true _ _).mp hk
    exact List.all_eq_true.mp this.2 c hc
  have hw1 : countWhile Char.isWhitespace ((e :: es) ++ [rb, rb] ++ t) = 0 := by
    apply countWhile_head_false
    exact (isWordChar_not_special e (hall e (List.mem_cons_self _ _))).2.2
  unfold matchWordLen
  rw [hw1]
  simp only [List.drop_zero]
  have hrun : countWhile isWordChar ((e :: es) ++ [rb, rb] ++ t) =
      (e :: es).length := by
    rw [List.append_assoc]
    exact countWhile_run isWordChar (e :: es) rb ([rb] ++ t) hall (by decide)
  rw [hrun]
  have hne : ((e :: es).length = 0) = False := by simp
  simp only [hne, if_false]
  have hdrop : ((e :: es) ++ [rb, rb] ++ t).drop (e :: es).length = rb :: rb :: t := by
    rw [List.append_assoc]
    have h0 := drop_append_exact (e :: es) ([rb, rb] ++ t) 0
    simp only [Nat.add_zero, List.drop_zero] at h0
    simpa using h0
  rw [hdrop]
  have hw2 : countWhile Char.isWhitespace (rb :: rb :: t) = 0 :=
    countWhile_head_false _ _ _ (by decide)
  rw [hw2]
  simp

/-- The key matcher at a placeholder over a DIFFERENT word key fails. -/
theorem matchKeyLen_other (k2 k t : List Char) (hk2 : wordL k2 = true)
    (hk : wordL k = true) (hne : k2 ≠ k) :
    matchKeyLen k2 (k ++ [rb, rb] ++ t) = none := by
  have hallk : ∀ c ∈ k, isWordChar c = true := by
    intro c hc
    exact List.all_eq_true.mp ((Bool.and_eq_true _ _).mp hk).2 c hc
  have hallk2 : ∀ c ∈ k2, isWordChar c = true := by
    intro c hc
    exact List.all_eq_true.mp ((Bool.and_eq_true _ _).mp hk2).2 c hc
  have hw1 : countWhile Char.isWhitespace (k ++ [rb, rb] ++ t) = 0 := by
    rcases k with _ | ⟨e, es⟩
    · exact absurd hk (by simp [wordL])
    · exact countWhile_head_false _ _ _
        (isWordChar_not_special e (hallk e (List.mem_cons_self _ _))).2.2
  unfold matchKeyLen
  rw [hw1]
  simp only [List.drop_zero]
  by_cases hpre : k2.isPrefixOf (k ++ [rb, rb] ++ t) = true
  · rw [hpre]
    simp only [if_true]
    have hprefix : k2 <+: (k ++ [rb, rb] ++ t) := by
      exact List.isPrefixOf_iff_prefix.mp hpre
    by_cases hlen : k2.length ≤ k.length
    · have hk2k : k2 <+: k := by
        apply List.prefix_of_prefix_length_le hprefix _ hlen
        rw [List.append_assoc]
        exact (List.prefix_append k ([rb, rb] ++ t))
      rcases Nat.lt_or_ge k2.length k.length with hlt | hge
      · have hdropne : k.drop k2.length ≠ [] := by
          intro hc
          have := List.drop_eq_nil_iff.mp hc
          omega
        obtain ⟨e2, es2, he2⟩ := List.exists_cons_of_ne_nil hdropne
        have hdrop2 : (k ++ [rb, rb] ++ t).drop k2.length =
            e2 :: (es2 ++ ([rb, rb] ++ t)) := by
          rw [List.append_assoc, List.drop_append_of_le_length (by omega)]
          rw [he2]
          simp
        rw [hdrop2]
        have he2w : isWordChar e2 = true := by
          apply hallk
          apply List.mem_of_mem_drop
          rw [he2]
          exact List.mem_cons_self _ _
        have hw2 : countWhile Char.isWhitespace (e2 :: (es2 ++ ([rb, rb] ++ t))) = 0 :=
          countWhile_head_false _ _ _ (isWordChar_not_special e2 he2w).2.2
        rw [hw2]
        simp only [List.drop_zero]
        have he2rb : (e2 = rb) = False := by
          simp [(isWordChar_not_special e2 he2w).2.1]
        rcases es2 with _ | ⟨f, fs⟩
        · simp [he2rb]
        · simp [he2rb]
      · have heq : k2 = k :=
          List.IsPrefix.eq_of_length hk2k (by omega)
        exact absurd heq hne
    · have hmem : rb ∈ k2 := by
        have hsub : (k ++ [rb]) <+: k2 :=
          List.prefix_of_prefix_length_le ⟨[rb] ++ t, by simp⟩ hprefix
            (by simp; omega)
        exact hsub.subset (by simp)
      have := hallk2 rb hmem
      exact absurd this (by decide)
  · simp only [Bool.not_eq_true] at hpre
    rw [hpre]
    simp

/-- A dollar-free replacement string substitutes as itself. -/
theorem getSubstitution_of_noDollar (m b a : List Char) (repl : List Char)
    (h : noDollarL repl = true) : getSubstitution m b a repl = repl := by
  induction repl with
  | nil => rfl
  | cons c cs ih =>
    have hc : (c = dollar) = False := by
      have := List.all_eq_true.mp h c (List.mem_cons_self _ _)
      simpa using this
    have hcs : noDollarL cs = true := by
      have := List.all_eq_true.mp h
      exact List.all_eq_true.mpr (fun x hx => this x (List.mem_cons_of_mem _ hx))
    unfold getSubstitution
    simp only [hc, if_false]
    rw [ih hcs]

/-- Skipping exactly the length of a consumed segment resumes a clean scan
after it (key-replacement scanner). -/
theorem replaceKeyAux_skip (key repl : List Char) (u : List Char) :
    ∀ (pre t : List Char),
      replaceKeyAux key repl u.length pre (u ++ t) =
        replaceKeyAux key repl 0 (pre ++ u) t := by
  induction u with
  | nil => intro pre t; simp [replaceKeyAux]
  | cons c u ih =>
    intro pre t
    simp only [List.cons_append, List.length_cons]
    rw [show replaceKeyAux key repl (u.length + 1) pre (c :: (u ++ t)) =
        replaceKeyAux key repl u.length (pre ++ [c]) (u ++ t) from rfl]
    rw [ih (pre ++ [c]) t]
    simp

/-- Skipping exactly the length of a consumed segment resumes a clean scan
after it (removal scanner). -/
theorem removeUnmatchedAux_skip (u : List Char) :
    ∀ t : List Char,
      removeUnmatchedAux u.length (u ++ t) = removeUnmatchedAux 0 t := by
  induction u with
  | nil => intro t; simp
  | cons c u ih =>
    intro t
    simp only [List.cons_append, List.length_cons]
    rw [show removeUnmatchedAux (u.length + 1) (c :: (u ++ t)) =
        removeUnmatchedAux u.length (u ++ t) from rfl]
    exact ih t

/-- A non-brace head is emitted and the scan advances one character
(key-replacement scanner). -/
theorem replaceKeyAux_cons_ne (key repl : List Char) (c : Char) (hc : c ≠ lb)
    (pre cs : List Char) :
    replaceKeyAux key repl 0 pre (c :: cs) =
      c :: replaceKeyAux key repl 0 (pre ++ [c]) cs := by
  rcases cs with _ | ⟨c2, rest2⟩
  · simp [replaceKeyAux]
  · simp only [replaceKeyAux]
    rw [if_neg (by simp [hc])]

/-- A non-brace head is emitted and the scan advances one character
(removal scanner). -/
theorem removeUnmatchedAux_cons_ne (c : Char) (hc : c ≠ lb) (cs : List Char) :
    removeUnmatchedAux 0 (c :: cs) = c :: removeUnmatchedAux 0 cs := by
  rcases cs with _ | ⟨c2, rest2⟩
  · simp [removeUnmatchedAux]
  · simp only [removeUnmatchedAux]
    rw [if_neg (by simp [hc])]

/-- The key-replacement scan emits text containing no opening brace
verbatim and continues after it. -/
theorem replaceKeyAux_lit (key repl : List Char) (u : List Char)
    (hu : ∀ c ∈ u, c ≠ lb) :
    ∀ (pre t : List Char),
      replaceKeyAux key repl 0 pre (u ++ t) =
        u ++ replaceKeyAux key repl 0 (pre ++ u) t := by
  induction u with
  | nil => intro pre t; simp
  | cons c u ih =>
    intro pre t
    have hu2 : ∀ x ∈ u, x ≠ lb := fun x hx => hu x (List.mem_cons_of_mem _ hx)
    rw [List.cons_append,
        replaceKeyAux_cons_ne key repl c (hu c (List.mem_cons_self _ _)) pre (u ++ t),
        ih hu2 (pre ++ [c]) t]
    simp

/-- The removal scan emits text containing no opening brace verbatim and
continues after it. -/
theorem removeUnmatchedAux_lit (u : List Char) (hu : ∀ c ∈ u, c ≠ lb) :
    ∀ t : List Char,
      removeUnmatchedAux 0 (u ++ t) = u ++ removeUnmatchedAux 0 t := by
  induction u with
  | nil => intro t; simp
  | cons c u ih =>
    intro t
    have hu2 : ∀ x ∈ u, x ≠ lb := fun x hx => hu x (List.mem_cons_of_mem _ hx)
    rw [List.cons_append,
        removeUnmatchedAux_cons_ne c (hu c (List.mem_cons_self _ _)) (u ++ t),
        ih hu2 t]
    simp

/-- An opening brace followed by a non-brace is emitted and the scan
advances one character (key-replacement scanner). -/
theorem replaceKeyAux_cons_lb_ne (key repl : List Char) (c2 : Char)
    (hc2 : c2 ≠ lb) (pre rest2 : List Char) :
    replaceKeyAux key repl 0 pre (lb :: c2 :: rest2) =
      lb :: replaceKeyAux key repl 0 (pre ++ [lb]) (c2 :: rest2) := by
  simp only [replaceKeyAux]
  rw [if_neg (by simp [hc2])]

/-- An opening brace followed by a non-brace is emitted and the scan
advances one character (removal scanner). -/
theorem removeUnmatchedAux_cons_lb_ne (c2 : Char) (hc2 : c2 ≠ lb)
    (rest2 : List Char) :
    removeUnmatchedAux 0 (lb :: c2 :: rest2) =
      lb :: removeUnmatchedAux 0 (c2 :: rest2) := by
  simp only [removeUnmatchedAux]
  rw [if_neg (by simp [hc2])]

/-- The characters of a rendered placeholder body carry no opening brace. -/
theorem ph_body_no_lb (k : List Char) (hk : wordL k = true) :
    ∀ c ∈ k ++ [rb, rb], c ≠ lb := by
  intro c hc
  rcases List.mem_append.mp hc with h | h
  · exact (isWordChar_not_special c
      (List.all_eq_true.mp ((Bool.and_eq_true _ _).mp hk).2 c h)).1
  · simp at h
    subst h
    decide

/-- The key-replacement scan at a placeholder over its own key: the whole
placeholder is consumed and the (dollar-free) replacement emitted. -/
theorem replaceKeyAux_ph_match (k r : List Char) (hk : wordL k = true)
    (hr : noDollarL r = true) (pre t : List Char) :
    replaceKeyAux k r 0 pre ((lb :: lb :: (k ++ [rb, rb])) ++ t) =
      r ++ replaceKeyAux k r 0 (pre ++ (lb :: lb :: (k ++ [rb, rb]))) t := by
  have hm := matchKeyLen_self k t hk
  have htake : (k ++ [rb, rb] ++ t).take (k.length + 2) = k ++ [rb, rb] := by
    rw [List.append_assoc, take_append_exact k ([rb, rb] ++ t) 2]
    simp
  have hdrop : (k ++ [rb, rb] ++ t).drop (k.length + 2) = t := by
    rw [List.append_assoc, drop_append_exact k ([rb, rb] ++ t) 2]
    simp
  have hskip := replaceKeyAux_skip k r (k ++ [rb, rb]) (pre ++ [lb] ++ [lb]) t
  rw [show (k ++ [rb, rb]).length = k.length + 2 from by simp] at hskip
  rw [show ((lb :: lb :: (k ++ [rb, rb])) ++ t : List Char) =
      lb :: lb :: (k ++ [rb, rb] ++ t) from by simp]
  simp only [replaceKeyAux]
  rw [if_pos (by simp)]
  rw [hm]
  dsimp only
  rw [htake, hdrop, getSubstitution_of_noDollar _ _ _ r hr, hskip]
  simp

/-- The key-replacement scan at a placeholder over a different word key
passes the placeholder through verbatim. -/
theorem replaceKeyAux_ph_other (k2 k r : List Char) (hk2 : wordL k2 = true)
    (hk : wordL k = true) (hne : k2 ≠ k) (pre t : List Char) :
    replaceKeyAux k2 r 0 pre ((lb :: lb :: (k ++ [rb, rb])) ++ t) =
      (lb :: lb :: (k ++ [rb, rb])) ++
        replaceKeyAux k2 r 0 (pre ++ (lb :: lb :: (k ++ [rb, rb]))) t := by
  have hm := matchKeyLen_other k2 k t hk2 hk hne
  have hstep1 : replaceKeyAux k2 r 0 pre ((lb :: lb :: (k ++ [rb, rb])) ++ t) =
      lb :: replaceKeyAux k2 r 0 (pre ++ [lb]) (lb :: ((k ++ [rb, rb]) ++ t)) := by
    rw [show ((lb :: lb :: (k ++ [rb, rb])) ++ t : List Char) =
        lb :: lb :: ((k ++ [rb, rb]) ++ t) from by simp]
    simp only [replaceKeyAux]
    rw [if_pos (by simp)]
    rw [show ((k ++ [rb, rb]) ++ t : List Char) = k ++ [rb, rb] ++ t from rfl, hm]
  rw [hstep1]
  rcases hksh : k with _ | ⟨e, es⟩
  · exact absurd (hksh ▸ hk) (by simp [wordL])
  have hallk : ∀ c ∈ k, isWordChar c = true :=
    List.all_eq_true.mp ((Bool.and_eq_true _ _).mp hk).2
  have hew : isWordChar e = true := by
    apply hallk
    rw [hksh]
    exact List.mem_cons_self _ _
  have hstep2 : (lb :: (((e :: es) ++ [rb, rb]) ++ t) : List Char) =
      lb :: (e :: ((es ++ [rb, rb]) ++ t)) := by simp
  rw [hstep2, replaceKeyAux_cons_lb_ne k2 r e (isWordChar_not_special e hew).1 _ _]
  rw [show (e :: ((es ++ [rb, rb]) ++ t) : List Char) =
      ((e :: es) ++ [rb, rb]) ++ t from by simp]
  rw [replaceKeyAux_lit k2 r ((e :: es) ++ [rb, rb])
      (ph_body_no_lb (e :: es) (hksh ▸ hk)) _ t]
  simp

/-- The removal scan at any good placeholder consumes it whole and emits
nothing. -/
theorem removeUnmatchedAux_ph (k : List Char) (hk : wordL k = true)
    (t : List Char) :
    removeUnmatchedAux 0 ((lb :: lb :: (k ++ [rb, rb])) ++ t) =
      removeUnmatchedAux 0 t := by
  have hm := matchWordLen_self k t hk
  have hskip := removeUnmatchedAux_skip (k ++ [rb, rb]) t
  rw [show (k ++ [rb, rb]).length = k.length + 2 from by simp] at hskip
  rw [show ((lb :: lb :: (k ++ [rb, rb])) ++ t : List Char) =
      lb :: lb :: (k ++ [rb, rb] ++ t) from by simp]
  simp only [removeUnmatchedAux]
  rw [if_pos (by simp)]
  rw [hm]
  dsimp only
  rw [show (k ++ [rb, rb] ++ t : List Char) = (k ++ [rb, rb]) ++ t from rfl]
  exact hskip

/-- Unequal strings have unequal character lists. -/
theorem string_toList_ne (a b : String) (h : a ≠ b) : a.toList ≠ b.toList :=
  fun he => h (String.ext he)

/-- Characters of brace-free text are not the opening brace. -/
theorem braceFree_no_lb (l : List Char) (h : braceFreeL l = true) :
    ∀ c ∈ l, c ≠ lb := by
  intro c hc
  have hall := List.all_eq_true.mp h c hc
  simp at hall
  exact hall.1

/-- One key-replacement pass over a rendered well-formed template acts
segmentwise: the placeholders over the pass key become the replacement
text and every other segment is copied verbatim. -/
theorem replaceKeyAux_template (k2 r : String) (hk2 : wordL k2.toList = true)
    (_hrb : braceFreeL r.toList = true) (hrd : noDollarL r.toList = true) :
    ∀ (segs : List Seg), (∀ sg ∈ segs, goodSeg sg = true) →
      ∀ pre, replaceKeyAux k2.toList r.toList 0 pre (renderTemplateL segs) =
        renderTemplateL (List.map (passSeg k2 r) segs) := by
  intro segs
  induction segs with
  | nil => intro _ pre; simp [renderTemplateL, replaceKeyAux]
  | cons sg segs ih =>
    intro hg pre
    have hgs : ∀ x ∈ segs, goodSeg x = true :=
      fun x hx => hg x (List.mem_cons_of_mem _ hx)
    have hgh := hg sg (List.mem_cons_self _ _)
    rw [show renderTemplateL (sg :: segs) = renderSegL sg ++ renderTemplateL segs
        from by simp [renderTemplateL]]
    rcases sg with s | k
    · have hbf : braceFreeL s.toList = true := hgh
      rw [show renderSegL (Seg.lit s) = s.toList from rfl]
      rw [replaceKeyAux_lit k2.toList r.toList s.toList (braceFree_no_lb _ hbf)
          pre (renderTemplateL segs), ih hgs (pre ++ s.toList)]
      simp [renderTemplateL, passSeg, renderSegL]
    · have hkw : wordL k.toList = true := hgh
      by_cases hkey : k = k2
      · subst hkey
        rw [show renderSegL (Seg.ph k) = lb :: lb :: (k.toList ++ [rb, rb])
            from rfl]
        rw [replaceKeyAux_ph_match k.toList r.toList hkw hrd pre
            (renderTemplateL segs)]
        rw [ih hgs (pre ++ (lb :: lb :: (k.toList ++ [rb, rb])))]
        simp [renderTemplateL, passSeg, renderSegL]
      · rw [show renderSegL (Seg.ph k) = lb :: lb :: (k.toList ++ [rb, rb])
            from rfl]
        rw [replaceKeyAux_ph_other k2.toList k.toList r.toList hk2 hkw
            (string_toList_ne k2 k (Ne.symm hkey)) pre (renderTemplateL segs)]
        rw [ih hgs (pre ++ (lb :: lb :: (k.toList ++ [rb, rb])))]
        simp [renderTemplateL, passSeg, hkey, renderSegL]

/-- The removal pass over a rendered well-formed template keeps exactly
the literal segments and deletes every placeholder. -/
theorem removeUnmatchedAux_template :
    ∀ (segs : List Seg), (∀ sg ∈ segs, goodSeg sg = true) →
      removeUnmatchedAux 0 (renderTemplateL segs) =
        (List.map dropPhL segs).flatten := by
  intro segs
  induction segs with
  | nil => intro _; rfl
  | cons sg segs ih =>
    intro hg
    have hgs : ∀ x ∈ segs, goodSeg x = true :=
      fun x hx => hg x (List.mem_cons_of_mem _ hx)
    have hgh := hg sg (List.mem_cons_self _ _)
    rw [show renderTemplateL (sg :: segs) = renderSegL sg ++ renderTemplateL segs
        from by simp [renderTemplateL]]
    rcases sg with s | k
    · rw [show renderSegL (Seg.lit s) = s.toList from rfl]
      rw [removeUnmatchedAux_lit s.toList (braceFree_no_lb _ hgh)
          (renderTemplateL segs), ih hgs]
      simp [dropPhL]
    · rw [show renderSegL (Seg.ph k) = lb :: lb :: (k.toList ++ [rb, rb])
          from rfl]
      rw [removeUnmatchedAux_ph k.toList hgh (renderTemplateL segs), ih hgs]
      simp [dropPhL]

/-- One pass preserves segment well-formedness when its replacement text
is brace-free. -/
theorem goodSeg_passSeg (k2 r : String) (hrb : braceFreeL r.toList = true)
    (sg : Seg) (hg : goodSeg sg = true) : goodSeg (passSeg k2 r sg) = true := by
  rcases sg with s | k
  · exact hg
  · simp only [passSeg]
    by_cases h : k = k2
    · rw [if_pos h]
      exact hrb
    · rw [if_neg h]
      exact hg

/-- All passes of a well-formed map preserve segment well-formedness. -/
theorem goodSeg_applyEntrySeg :
    ∀ (values : List (String × UVal)), (∀ kv ∈ values, goodEntry kv = true) →
      ∀ sg, goodSeg sg = true → goodSeg (applyEntrySeg values sg) = true := by
  intro values
  induction values with
  | nil => intro _ sg hg; exact hg
  | cons kv values ih =>
    intro hv sg hg
    have h3 := (Bool.and_eq_true _ _).mp (hv kv (List.mem_cons_self _ _))
    have h2 := (Bool.and_eq_true _ _).mp h3.1
    exact ih (fun x hx => hv x (List.mem_cons_of_mem _ hx)) _
      (goodSeg_passSeg kv.1 (uvalToReplacement kv.2) h2.2 sg hg)

/-- Literal segments are fixed by every sequence of passes. -/
theorem applyEntrySeg_lit (values : List (String × UVal)) (s : String) :
    applyEntrySeg values (Seg.lit s) = Seg.lit s := by
  induction values with
  | nil => rfl
  | cons kv values ih => exact ih

/-- A placeholder segment after all passes: it becomes the stringified
value of the first matching map entry, or stays a placeholder if no entry
matches. -/
theorem applyEntrySeg_ph :
    ∀ (values : List (String × UVal)) (k : String),
      applyEntrySeg values (Seg.ph k) =
        match values.find? (fun kv => kv.1 == k) with
        | some kv => Seg.lit (uvalToReplacement kv.2)
        | none => Seg.ph k := by
  intro values
  induction values with
  | nil => intro k; rfl
  | cons kv values ih =>
    intro k
    have happ : applyEntrySeg (kv :: values) (Seg.ph k) =
        applyEntrySeg values (passSeg kv.1 (uvalToReplacement kv.2) (Seg.ph k)) :=
      rfl
    by_cases h : kv.1 = k
    · rw [happ,
        show passSeg kv.1 (uvalToReplacement kv.2) (Seg.ph k) =
            Seg.lit (uvalToReplacement kv.2) from by
          simp only [passSeg]
          rw [if_pos h.symm],
        applyEntrySeg_lit,
        List.find?_cons_of_pos _ (by simp [h])]
    · rw [happ,
        show passSeg kv.1 (uvalToReplacement kv.2) (Seg.ph k) = Seg.ph k from by
          simp only [passSeg]
          rw [if_neg (fun he => h he.symm)],
        ih k,
        List.find?_cons_of_neg _ (by simp [h])]

/-- Characters left of a segment by the removal pass, after all
replacement passes, are exactly the characters of its expected final
text. -/
theorem dropPh_applyEntrySeg (values : List (String × UVal)) (sg : Seg) :
    dropPhL (applyEntrySeg values sg) = (substSeg values sg).toList := by
  rcases sg with s | k
  · rw [applyEntrySeg_lit]
    rfl
  · rw [applyEntrySeg_ph values k]
    rcases hf : values.find? (fun kv => kv.1 == k) with _ | ⟨kv⟩
    · simp [substSeg, hf, dropPhL]
    · simp [substSeg, hf, dropPhL]

/-- The expected final text of a segment is brace-free for a well-formed
segment and map. -/
theorem substSeg_braceFree (values : List (String × UVal))
    (hv : ∀ kv ∈ values, goodEntry kv = true) (sg : Seg)
    (hg : goodSeg sg = true) :
    braceFreeL (substSeg values sg).toList = true := by
  rcases sg with s | k
  · exact hg
  · rcases hf : values.find? (fun kv => kv.1 == k) with _ | ⟨kv⟩
    · rw [show substSeg values (Seg.ph k) = "" from by simp [substSeg, hf]]
      rfl
    · rw [show substSeg values (Seg.ph k) = uvalToReplacement kv.2 from by
        simp [substSeg, hf]]
      have h3 := (Bool.and_eq_true _ _).mp (hv kv (List.mem_of_find?_eq_some hf))
      exact ((Bool.and_eq_true _ _).mp h3.1).2

/-- Text with no opening brace contains no placeholder. -/
theorem hasPlaceholderAux_of_no_lb :
    ∀ l : List Char, (∀ c ∈ l, c ≠ lb) → hasPlaceholderAux l = false := by
  intro l
  induction l with
  | nil => intro _; rfl
  | cons c cs ih =>
    intro h
    simp only [hasPlaceholderAux]
    rcases cs with _ | ⟨c2, rest2⟩
    · rfl
    · rw [ih (fun x hx => h x (List.mem_cons_of_mem _ hx))]
      simp [h c (List.mem_cons_self _ _)]

/-- The whole fold of key-replacement passes over a rendered well-formed
template equals the template rendered after the segmentwise passes. -/
theorem foldl_replaceKeyStr_template :
    ∀ (values : List (String × UVal)), (∀ kv ∈ values, goodEntry kv = true) →
      ∀ (segs : List Seg), (∀ sg ∈ segs, goodSeg sg = true) →
        values.foldl (fun acc kv => replaceKeyStr kv.1 (uvalToReplacement kv.2) acc)
            (renderTemplate segs) =
          renderTemplate (List.map (applyEntrySeg values) segs) := by
  intro values
  induction values with
  | nil =>
    intro _ segs _
    rw [show applyEntrySeg ([] : List (String × UVal)) = id from by funext sg; rfl]
    rw [List.map_id]
    rfl
  | cons kv values ih =>
    intro hv segs hg
    have h3 := (Bool.and_eq_true _ _).mp (hv kv (List.mem_cons_self _ _))
    have h2 := (Bool.and_eq_true _ _).mp h3.1
    rw [show (kv :: values).foldl
        (fun acc x => replaceKeyStr x.1 (uvalToReplacement x.2) acc)
        (renderTemplate segs) =
      values.foldl (fun acc x => replaceKeyStr x.1 (uvalToReplacement x.2) acc)
        (replaceKeyStr kv.1 (uvalToReplacement kv.2) (renderTemplate segs))
      from rfl]
    rw [show replaceKeyStr kv.1 (uvalToReplacement kv.2) (renderTemplate segs) =
        renderTemplate (List.map (passSeg kv.1 (uvalToReplacement kv.2)) segs)
      from by
        unfold replaceKeyStr renderTemplate
        rw [show (String.mk (renderTemplateL segs)).toList = renderTemplateL segs
            from rfl]
        rw [replaceKeyAux_template kv.1 (uvalToReplacement kv.2) h2.1 h2.2 h3.2
            segs hg []]]
    rw [ih (fun x hx => hv x (List.mem_cons_of_mem _ hx)) _
        (fun sg hsg => by
          rcases List.mem_map.mp hsg with ⟨sg0, hsg0, rfl⟩
          exact goodSeg_passSeg kv.1 (uvalToReplacement kv.2) h2.2 sg0
            (hg sg0 hsg0))]
    rw [List.map_map]
    rw [show applyEntrySeg values ∘ passSeg kv.1 (uvalToReplacement kv.2) =
        applyEntrySeg (kv :: values) from by funext sg; rfl]

/-- C10 (amended): on a base prompt whose braces occur only as complete,
non-nested placeholders over nonempty word-character keys, with every map
key a word and every map value stringifying to brace- and dollar-free
text, replacePlaceholders replaces each placeholder whose key has a map
entry by that entry's stringified value (first entry in map order;
null/undefined give the empty string), removes every other placeholder,
copies all literal text, and the returned prompt contains no remaining
placeholder of the removable form. -/
theorem c10_amended_wellformed_prompt_fully_substituted
    (segs : List Seg) (values : List (String × UVal))
    (hg : ∀ sg ∈ segs, goodSeg sg = true)
    (hv : ∀ kv ∈ values, goodEntry kv = true) :
    replacePlaceholders (renderTemplate segs) values =
      String.mk ((List.map (fun sg => (substSeg values sg).toList) segs).flatten) ∧
    hasPlaceholder (replacePlaceholders (renderTemplate segs) values) = false := by
  have hmain : replacePlaceholders (renderTemplate segs) values =
      String.mk ((List.map (fun sg => (substSeg values sg).toList) segs).flatten) := by
    unfold replacePlaceholders
    rw [foldl_replaceKeyStr_template values hv segs hg]
    unfold removeUnmatchedStr renderTemplate
    rw [show (String.mk (renderTemplateL (List.map (applyEntrySeg values) segs))).toList
        = renderTemplateL (List.map (applyEntrySeg values) segs) from rfl]
    rw [removeUnmatchedAux_template (List.map (applyEntrySeg values) segs)
        (fun sg hsg => by
          rcases List.mem_map.mp hsg with ⟨sg0, hsg0, rfl⟩
          exact goodSeg_applyEntrySeg values hv sg0 (hg sg0 hsg0))]
    rw [List.map_map]
    rw [show dropPhL ∘ applyEntrySeg values =
        fun sg => (substSeg values sg).toList from by
      funext sg
      exact dropPh_applyEntrySeg values sg]
  refine ⟨hmain, ?_⟩
  rw [hmain]
  unfold hasPlaceholder
  rw [show (String.mk ((List.map (fun sg => (substSeg values sg).toList) segs).flatten)).toList
      = (List.map (fun sg => (substSeg values sg).toList) segs).flatten from rfl]
  apply hasPlaceholderAux_of_no_lb
  intro c hc
  rcases List.mem_flatten.mp hc with ⟨l, hl, hcl⟩
  rcases List.mem_map.mp hl with ⟨sg, hsg, rfl⟩
  exact braceFree_no_lb _ (substSeg_braceFree values hv sg (hg sg hsg)) c hcl

/-- Witness for the amended C10 theorem: a concrete two-placeholder
template with one mapped key; the mapped placeholder is substituted, the
unmapped one removed, and no placeholder remains. -/
theorem c10_amended_wellformed_prompt_witness :
    (∀ sg ∈ ([Seg.lit "a portrait of ", Seg.ph "name", Seg.lit " in ",
        Seg.ph "style", Seg.lit " style"] : List Seg), goodSeg sg = true) ∧
    (∀ kv ∈ ([("name", UVal.vstr "Ada")] : List (String × UVal)),
        goodEntry kv = true) ∧
    (replacePlaceholders
        (renderTemplate [Seg.lit "a portrait of ", Seg.ph "name",
          Seg.lit " in ", Seg.ph "style", Seg.lit " style"])
        [("name", UVal.vstr "Ada")] =
      String.mk ((List.map (fun sg =>
          (substSeg [("name", UVal.vstr "Ada")] sg).toList)
        [Seg.lit "a portrait of ", Seg.ph "name", Seg.lit " in ",
          Seg.ph "style", Seg.lit " style"]).flatten) ∧
    hasPlaceholder (replacePlaceholders
        (renderTemplate [Seg.lit "a portrait of ", Seg.ph "name",
          Seg.lit " in ", Seg.ph "style", Seg.lit " style"])
        [("name", UVal.vstr "Ada")]) = false) :=
  ⟨by decide, by decide,
    c10_amended_wellformed_prompt_fully_substituted
      [Seg.lit "a portrait of ", Seg.ph "name", Seg.lit " in ",
        Seg.ph "style", Seg.lit " style"]
      [("name", UVal.vstr "Ada")] (by decide) (by decide)⟩
